import Mathlib

/-!
# sqRAPI: projection, visibility and flat shading pipeline

A shallow embedding of `src/sqRAPI/main.cpp` (and of `Point3D` from
`src/sqRAPI/api.hpp`).

## Arithmetic models

The C++ code computes on `float`.  The file reads the arithmetic in two ways.

**Exact arithmetic.**  The definitions of the section `Code` are generic in a linearly
ordered field `F` that stands for the finite float values with exact arithmetic (no
rounding, no overflow), and a float-valued expression has type `Flt F`:

* `Flt.fin v`  is the finite value `v`;
* `Flt.undef`  is a non-finite value (NaN or an infinity), which exact arithmetic can
  only produce by dividing by zero.

A non-finite operand makes `+`, `-`, `*` non-finite.  In the code modelled
here a divisor is always finite, and a possibly non-finite value is only ever
compared in the pair `c >= 0 && c < bound` with a finite bound, which neither
NaN nor an infinity satisfies; comparisons with `undef` are therefore `false`.

**Binary32 arithmetic.**  The type `F32` is the IEEE 754 binary32 format (NaN, the two
infinities, the two zeros, normal and subnormal numbers) with every operation rounded to
nearest, ties to even.  The definitions of the namespace `Binary32` are the same source
functions on `F32`; they decide the statements whose truth depends on rounding.

The libm functions `tan`, `cos`, `sin`, `sqrt` are not part of the repository;
they are a parameter (`Libm F`), and what a theorem needs of them is a
hypothesis of that theorem.  The stream extraction of `loadObj` is library code as well:
a line of the file is given by what the extraction leaves in the variables (`Line`).
The face indices are 32-bit `int` values, and their decrement wraps (`wrapInt32`).
-/

namespace SqRAPI

/-- A float value: finite, or non-finite (the result of a division by zero). -/
inductive Flt (F : Type) where
  | fin (v : F)
  | undef
  deriving DecidableEq, Repr

namespace Flt

variable {F : Type} [LinearOrderedField F]

/-- Float addition. -/
def add : Flt F → Flt F → Flt F
  | fin a, fin b => fin (a + b)
  | _, _ => undef

/-- Float subtraction. -/
def sub : Flt F → Flt F → Flt F
  | fin a, fin b => fin (a - b)
  | _, _ => undef

/-- Float multiplication. -/
def mul : Flt F → Flt F → Flt F
  | fin a, fin b => fin (a * b)
  | _, _ => undef

/-- Float division: a zero divisor gives a non-finite value. -/
def div : Flt F → Flt F → Flt F
  | fin a, fin b => if b = 0 then undef else fin (a / b)
  | _, _ => undef

instance : Add (Flt F) := ⟨add⟩
instance : Sub (Flt F) := ⟨sub⟩
instance : Mul (Flt F) := ⟨mul⟩
instance : Div (Flt F) := ⟨div⟩

/-- The comparison `a >= b`. -/
def ge : Flt F → Flt F → Bool
  | fin a, fin b => decide (b ≤ a)
  | _, _ => false

/-- The comparison `a < b`. -/
def lt : Flt F → Flt F → Bool
  | fin a, fin b => decide (a < b)
  | _, _ => false

/-- The function `std::max(a, b)`, which is `(a < b) ? b : a`, on a value `a` that is
finite or NaN. -/
def max (a b : Flt F) : Flt F :=
  if lt a b then b else a

end Flt

open Flt

/-- The libm functions the code calls. -/
structure Libm (F : Type) where
  tan : F → F
  cos : F → F
  sin : F → F
  sqrt : F → F

/-- The class `Point3D` of api.hpp (its constructor defaults every coordinate to 0). -/
structure Point3D (F : Type) where
  x : Flt F
  y : Flt F
  z : Flt F

/-- The struct `Vertex`. -/
structure Vertex (F : Type) where
  x : F
  y : F
  z : F

/-- The struct `Face`: three 0-based vertex indices. -/
structure Face where
  v1 : Int
  v2 : Int
  v3 : Int
  deriving DecidableEq, Repr

/-- The struct `Camera`. -/
structure Camera (F : Type) where
  x : F
  y : F
  z : F
  yaw : F
  pitch : F
  speed : F

/-- The struct `LightSource`. -/
structure LightSource (F : Type) where
  x : F
  y : F
  z : F

section Code

variable {F : Type} [LinearOrderedField F]

/-- The method `Point3D::operator/`: the guarded division by a scalar. -/
def Point3D.divScalar (p : Point3D F) (scalar : F) : Point3D F :=
  if scalar ≠ 0 then ⟨p.x / fin scalar, p.y / fin scalar, p.z / fin scalar⟩
  else ⟨fin 0, fin 0, fin 0⟩

/-- The method `Camera::Move`, for any type of float values with its addition. -/
def Camera.Move {α : Type} [Add α] (c : Camera α) (dx dy dz : α) : Camera α :=
  { c with x := c.x + dx, y := c.y + dy, z := c.z + dz }

/-- The method `Camera::Rotate`, for any type of float values with its addition: exact in
a field, rounded in `F32`. -/
def Camera.Rotate {α : Type} [Add α] (c : Camera α) (dYaw dPitch : α) : Camera α :=
  { c with yaw := c.yaw + dYaw, pitch := c.pitch + dPitch }

/-- The local array `projectionMatrix` of `projectVertex`. -/
def projectionMatrix (L : Libm F) (width height : F) : Fin 4 → Fin 4 → Flt F :=
  let fov : F := 90
  let nearPlane : F := 1 / 10
  let farPlane : F := 100
  let aspectRatio : Flt F := fin width / fin height
  ![![aspectRatio * fin (L.tan (fov * (1 / 2))), fin 0, fin 0, fin 0],
    ![fin 0, fin (L.tan (fov * (1 / 2))), fin 0, fin 0],
    ![fin 0, fin 0, fin (farPlane + nearPlane) / fin (nearPlane - farPlane),
      fin (2 * farPlane * nearPlane) / fin (nearPlane - farPlane)],
    ![fin 0, fin 0, fin (-1), fin 0]]

/-- The coordinates `(rotatedX, rotatedY, rotatedZ)` that `projectVertex` computes: the
vertex relative to the camera, Z negated, rotated by yaw and then by pitch. -/
def rotated (L : Libm F) (camera : Camera F) (vertex : Vertex F) : F × F × F :=
  let x := vertex.x - camera.x
  let y := vertex.y - camera.y
  let z := -(vertex.z - camera.z)
  let cosYaw := L.cos camera.yaw
  let sinYaw := L.sin camera.yaw
  let cosPitch := L.cos camera.pitch
  let sinPitch := L.sin camera.pitch
  let rotatedX := x * cosYaw - z * sinYaw
  let rotatedZ := x * sinYaw + z * cosYaw
  let rotatedY := y * cosPitch - rotatedZ * sinPitch
  let rotatedZ := y * sinPitch + rotatedZ * cosPitch
  (rotatedX, rotatedY, rotatedZ)

/-- The divisor of both quotients of `projectVertex`: row 3 of the matrix applied to the
rotated coordinates (the homogeneous coordinate `cw`). -/
def homogeneousDivisor (L : Libm F) (camera : Camera F) (vertex : Vertex F)
    (width height : F) : Flt F :=
  let m := projectionMatrix L width height
  let r := rotated L camera vertex
  m 3 0 * fin r.1 + m 3 1 * fin r.2.1 + m 3 2 * fin r.2.2 + m 3 3

/-- The function `projectVertex`; the global `camera` is a parameter. -/
def projectVertex (L : Libm F) (camera : Camera F) (vertex : Vertex F)
    (width height : F) : Point3D F :=
  let m := projectionMatrix L width height
  let r := rotated L camera vertex
  let rotatedX := fin r.1
  let rotatedY := fin r.2.1
  let rotatedZ := fin r.2.2
  let projectedX := (m 0 0 * rotatedX + m 0 1 * rotatedY + m 0 2 * rotatedZ + m 0 3) /
    (m 3 0 * rotatedX + m 3 1 * rotatedY + m 3 2 * rotatedZ + m 3 3)
  let projectedY := (m 1 0 * rotatedX + m 1 1 * rotatedY + m 1 2 * rotatedZ + m 1 3) /
    (m 3 0 * rotatedX + m 3 1 * rotatedY + m 3 2 * rotatedZ + m 3 3)
  let projectedX := (projectedX + fin 1) * fin (1 / 2) * fin width
  let projectedY := (fin 1 - projectedY) * fin (1 / 2) * fin height
  ⟨projectedX, projectedY, fin 0⟩

/-- The function `calculateNormal`. -/
def calculateNormal (v1 v2 v3 : Vertex F) : Vertex F :=
  let edge1 : Vertex F := ⟨v2.x - v1.x, v2.y - v1.y, v2.z - v1.z⟩
  let edge2 : Vertex F := ⟨v3.x - v1.x, v3.y - v1.y, v3.z - v1.z⟩
  ⟨edge1.y * edge2.z - edge1.z * edge2.y,
   edge1.z * edge2.x - edge1.x * edge2.z,
   edge1.x * edge2.y - edge1.y * edge2.x⟩

/-- The function `calculateLighting`.  The code normalises `normal` in place through a
reference to the caller's local copy, which the caller does not read again; the model
returns the intensity. -/
def calculateLighting (L : Libm F) (normal : Vertex F) (light : LightSource F) : Flt F :=
  let lightDirection : Vertex F := ⟨light.x - normal.x, light.y - normal.y, light.z - normal.z⟩
  let normalLength := L.sqrt (normal.x * normal.x + normal.y * normal.y + normal.z * normal.z)
  let lightLength := L.sqrt (lightDirection.x * lightDirection.x +
    lightDirection.y * lightDirection.y + lightDirection.z * lightDirection.z)
  let nx := fin normal.x / fin normalLength
  let ny := fin normal.y / fin normalLength
  let nz := fin normal.z / fin normalLength
  let lx := fin lightDirection.x / fin lightLength
  let ly := fin lightDirection.y / fin lightLength
  let lz := fin lightDirection.z / fin lightLength
  let dotProduct := nx * lx + ny * ly + nz * lz
  Flt.max dotProduct (fin 0)

/-- The function `isTriangleView`. -/
def isTriangleView (p1 p2 p3 : Point3D F) (width height : F) : Bool :=
  (ge p1.x (fin 0) && lt p1.x (fin width) && ge p1.y (fin 0) && lt p1.y (fin height)) ||
  (ge p2.x (fin 0) && lt p2.x (fin width) && ge p2.y (fin 0) && lt p2.y (fin height)) ||
  (ge p3.x (fin 0) && lt p3.x (fin width) && ge p3.y (fin 0) && lt p3.y (fin height))

/-- The globals `vertices` and `faces`. -/
structure Mesh (F : Type) where
  vertices : List (Vertex F)
  faces : List Face

/-- The value a 32-bit `int` takes for the arithmetic result `i`: two's complement
wrap-around. -/
def wrapInt32 (i : Int) : Int :=
  (i + 2147483648) % 4294967296 - 2147483648

/-- One line of the input file, as `loadObj` sees it through the stream library: the first
token read by `ss >> token`, and for a `v` or an `f` line the values that the three
fields of the local `vertex` or `face` hold after the extraction statement.  A field
holds the number extracted into it, the value the library writes when the extraction
fails on its input (zero, or the saturated bound), or, when an earlier failure stops the
extraction before it, the indeterminate value it was declared with.  Every line of every
file is one of these: the extraction never prevents the `push_back`.  `F` is the type of
the float values stored. -/
inductive Line (F : Type) where
  | v (x y z : F)
  | f (i1 i2 i3 : Int)
  | other

/-- The body of the `while` loop of `loadObj`: one line read into the globals. -/
def loadLine (m : Mesh F) : Line F → Mesh F
  | Line.v x y z => { m with vertices := m.vertices ++ [⟨x, y, z⟩] }
  | Line.f i1 i2 i3 =>
    { m with faces := m.faces ++ [⟨wrapInt32 (i1 - 1), wrapInt32 (i2 - 1), wrapInt32 (i3 - 1)⟩] }
  | Line.other => m

/-- The function `loadObj`.  The file is `none` when it cannot be opened and the list of
its lines otherwise; the result is the returned flag and the globals afterwards. -/
def loadObj (file : Option (List (Line F))) (m : Mesh F) : Bool × Mesh F :=
  match file with
  | none => (false, m)
  | some lines => (true, lines.foldl loadLine m)

/-- The element access `vertices[i]` with an `int` index: defined inside the vector
only. -/
def vertexAt (vertices : List (Vertex F)) (i : Int) : Option (Vertex F) :=
  if 0 ≤ i then vertices[i.toNat]? else none

/-- The arguments of one call of `SQRAPI::RenderTriangle`. -/
structure DrawCall (F : Type) where
  p1 : Point3D F
  p2 : Point3D F
  p3 : Point3D F
  c1 : Int
  c2 : Int
  c3 : Int
  c4 : Flt F

/-- The body of the `for` loop of `renderModel`: `calls` is the sequence of triangles
submitted so far; `none` is an access outside the vertex vector. -/
def renderFace (L : Libm F) (camera : Camera F) (lightSource : LightSource F)
    (vertices : List (Vertex F)) (width height : F)
    (calls : List (DrawCall F)) (face : Face) : Option (List (DrawCall F)) := do
  let a ← vertexAt vertices face.v1
  let b ← vertexAt vertices face.v2
  let c ← vertexAt vertices face.v3
  let p1 := projectVertex L camera a width height
  let p2 := projectVertex L camera b width height
  let p3 := projectVertex L camera c width height
  if isTriangleView p1 p2 p3 width height then
    let normal := calculateNormal a b c
    let lighting := calculateLighting L normal lightSource
    pure (calls ++ [⟨p1, p2, p3, 255, 255, 255, lighting⟩])
  else
    pure calls

/-- The function `renderModel`: the sequence of triangles it submits, in order. -/
def renderModel (L : Libm F) (camera : Camera F) (lightSource : LightSource F)
    (m : Mesh F) (width height : F) : Option (List (DrawCall F)) :=
  m.faces.foldlM (renderFace L camera lightSource m.vertices width height) []

end Code

/-! ## Binary32 arithmetic -/

/-- A binary32 value: NaN, an infinity with its sign, or a finite value with its sign and
its magnitude (the two zeros are the finite values of magnitude 0). -/
inductive F32 where
  | nan
  | inf (neg : Bool)
  | num (neg : Bool) (mag : ℚ)
  deriving DecidableEq

namespace F32

/-- The power `2 ^ e` for an integer exponent. -/
def pow2 (e : Int) : ℚ :=
  if 0 ≤ e then ((2 ^ e.toNat : ℕ) : ℚ) else 1 / ((2 ^ (-e).toNat : ℕ) : ℚ)

/-- The search for the exponent: the greatest of `e`, `e - 1`, ..., `e - fuel + 1` whose
power of two is at most `a`, and `e - fuel` when there is none. -/
def binade : Nat → Int → ℚ → Int
  | 0, e, _ => e
  | fuel + 1, e, a => if pow2 e ≤ a then e else binade fuel (e - 1) a

/-- The binary32 exponent of a positive magnitude: the `e` with `2 ^ e ≤ a < 2 ^ (e + 1)`,
kept within the range from -126 (where the subnormal numbers begin) to 127. -/
def exponent (a : ℚ) : Int := binade 253 127 a

/-- Rounding to the nearest integer, ties to even. -/
def roundEven (s : ℚ) : Int :=
  let f := ⌊s⌋
  if s - f < 1 / 2 then f
  else if 1 / 2 < s - f then f + 1
  else if f % 2 = 0 then f else f + 1

/-- The multiple of the quantum nearest to a positive magnitude: binary32 has 24
significant bits, so the quantum in the binade of exponent `e` is `2 ^ (e - 23)`; ties go
to the even multiple. -/
def roundMag (a : ℚ) : ℚ :=
  (roundEven (a / pow2 (exponent a - 23)) : ℚ) * pow2 (exponent a - 23)

/-- Rounding of a positive magnitude to binary32: an infinity when the rounded magnitude
reaches `2 ^ 128`. -/
def round (neg : Bool) (a : ℚ) : F32 :=
  if pow2 128 ≤ roundMag a then inf neg else num neg (roundMag a)

/-- The rational value of a sign and a magnitude. -/
def signed (neg : Bool) (mag : ℚ) : ℚ := if neg then -mag else mag

/-- The float of an exact result `r`: the zero of sign `zneg` when `r` is 0, the rounding
of `r` otherwise. -/
def ofRat (zneg : Bool) (r : ℚ) : F32 :=
  if r = 0 then num zneg 0 else round (decide (r < 0)) |r|

/-- The float of a decimal literal of the source, or of an integer converted to
`float`. -/
def lit (r : ℚ) : F32 := ofRat false r

/-- Negation. -/
def neg : F32 → F32
  | nan => nan
  | inf s => inf (!s)
  | num s a => num (!s) a

/-- Addition: an exact zero sum is `-0` only when both operands are negative. -/
def add : F32 → F32 → F32
  | nan, _ => nan
  | _, nan => nan
  | inf s, inf t => if s = t then inf s else nan
  | inf s, num _ _ => inf s
  | num _ _, inf t => inf t
  | num s a, num t b => ofRat (s && t) (signed s a + signed t b)

/-- Subtraction. -/
def sub (a b : F32) : F32 := add a (neg b)

/-- Multiplication: the sign of a zero product is the exclusive or of the signs. -/
def mul : F32 → F32 → F32
  | nan, _ => nan
  | _, nan => nan
  | inf s, inf t => inf (xor s t)
  | inf s, num t b => if b = 0 then nan else inf (xor s t)
  | num s a, inf t => if a = 0 then nan else inf (xor s t)
  | num s a, num t b => ofRat (xor s t) (signed s a * signed t b)

/-- Division: `0/0` is NaN, another quotient by zero an infinity. -/
def div : F32 → F32 → F32
  | nan, _ => nan
  | _, nan => nan
  | inf _, inf _ => nan
  | inf s, num t _ => inf (xor s t)
  | num s _, inf t => num (xor s t) 0
  | num s a, num t b =>
    if b = 0 then (if a = 0 then nan else inf (xor s t))
    else ofRat (xor s t) (signed s a / signed t b)

instance : Add F32 := ⟨add⟩
instance : Sub F32 := ⟨sub⟩
instance : Mul F32 := ⟨mul⟩
instance : Div F32 := ⟨div⟩
instance : Neg F32 := ⟨neg⟩

/-- The comparison `a < b`: false with a NaN. -/
def lt : F32 → F32 → Bool
  | num s a, num t b => decide (signed s a < signed t b)
  | inf s, inf t => s && !t
  | inf s, num _ _ => s
  | num _ _, inf t => !t
  | _, _ => false

/-- The comparison `a >= b`: false with a NaN. -/
def ge : F32 → F32 → Bool
  | num s a, num t b => decide (signed t b ≤ signed s a)
  | inf s, inf t => !s || t
  | inf s, num _ _ => !s
  | num _ _, inf t => t
  | _, _ => false

/-- The function `std::max(a, b)`, which is `(a < b) ? b : a`. -/
def max (a b : F32) : F32 :=
  if lt a b then b else a

/-- The rational value of a finite float, and 0 for the others. -/
def val : F32 → ℚ
  | num s a => signed s a
  | _ => 0

/-- The float is finite. -/
def IsFinite : F32 → Prop
  | num _ _ => True
  | _ => False

instance IsFinite.decidable : (x : F32) → Decidable (IsFinite x)
  | num _ _ => isTrue trivial
  | nan => isFalse (fun h => h)
  | inf _ => isFalse (fun h => h)

/-- The value of the float nearest to a rational, overflow disregarded. -/
def RN (r : ℚ) : ℚ :=
  if r = 0 then 0 else signed (decide (r < 0)) (roundMag |r|)

/-- Equality of floats up to the sign of a zero. -/
def Sim (x y : F32) : Prop :=
  x = y ∨ ∃ s t, x = num s 0 ∧ y = num t 0

/-- The map is monotone or antitone. -/
def MonoOrAnti (f : ℚ → ℚ) : Prop := Monotone f ∨ Antitone f

end F32

namespace Binary32

open F32

/-- The class `Point3D` of api.hpp on binary32. -/
structure Point3D where
  x : F32
  y : F32
  z : F32
  deriving DecidableEq

/-- The local array `projectionMatrix` of `projectVertex`, on binary32. -/
def projectionMatrix (L : Libm F32) (width height : F32) : Fin 4 → Fin 4 → F32 :=
  let fov : F32 := lit 90
  let nearPlane : F32 := lit (1 / 10)
  let farPlane : F32 := lit 100
  let aspectRatio : F32 := width / height
  ![![aspectRatio * L.tan (fov * lit (1 / 2)), lit 0, lit 0, lit 0],
    ![lit 0, L.tan (fov * lit (1 / 2)), lit 0, lit 0],
    ![lit 0, lit 0, (farPlane + nearPlane) / (nearPlane - farPlane),
      (lit 2 * farPlane * nearPlane) / (nearPlane - farPlane)],
    ![lit 0, lit 0, lit (-1), lit 0]]

/-- The function `projectVertex` on binary32; the global `camera` is a parameter. -/
def projectVertex (L : Libm F32) (camera : Camera F32) (vertex : Vertex F32)
    (width height : F32) : Point3D :=
  let m := projectionMatrix L width height
  let x := vertex.x - camera.x
  let y := vertex.y - camera.y
  let z := -(vertex.z - camera.z)
  let cosYaw := L.cos camera.yaw
  let sinYaw := L.sin camera.yaw
  let cosPitch := L.cos camera.pitch
  let sinPitch := L.sin camera.pitch
  let rotatedX := x * cosYaw - z * sinYaw
  let rotatedZ := x * sinYaw + z * cosYaw
  let rotatedY := y * cosPitch - rotatedZ * sinPitch
  let rotatedZ := y * sinPitch + rotatedZ * cosPitch
  let projectedX := (m 0 0 * rotatedX + m 0 1 * rotatedY + m 0 2 * rotatedZ + m 0 3) /
    (m 3 0 * rotatedX + m 3 1 * rotatedY + m 3 2 * rotatedZ + m 3 3)
  let projectedY := (m 1 0 * rotatedX + m 1 1 * rotatedY + m 1 2 * rotatedZ + m 1 3) /
    (m 3 0 * rotatedX + m 3 1 * rotatedY + m 3 2 * rotatedZ + m 3 3)
  let projectedX := (projectedX + lit 1) * lit (1 / 2) * width
  let projectedY := (lit 1 - projectedY) * lit (1 / 2) * height
  ⟨projectedX, projectedY, lit 0⟩

/-- The function `calculateNormal` on binary32. -/
def calculateNormal (v1 v2 v3 : Vertex F32) : Vertex F32 :=
  let edge1 : Vertex F32 := ⟨v2.x - v1.x, v2.y - v1.y, v2.z - v1.z⟩
  let edge2 : Vertex F32 := ⟨v3.x - v1.x, v3.y - v1.y, v3.z - v1.z⟩
  ⟨edge1.y * edge2.z - edge1.z * edge2.y,
   edge1.z * edge2.x - edge1.x * edge2.z,
   edge1.x * edge2.y - edge1.y * edge2.x⟩

/-- The function `calculateLighting` on binary32; the model returns the intensity. -/
def calculateLighting (L : Libm F32) (normal : Vertex F32) (light : LightSource F32) : F32 :=
  let lightDirection : Vertex F32 :=
    ⟨light.x - normal.x, light.y - normal.y, light.z - normal.z⟩
  let normalLength := L.sqrt (normal.x * normal.x + normal.y * normal.y + normal.z * normal.z)
  let lightLength := L.sqrt (lightDirection.x * lightDirection.x +
    lightDirection.y * lightDirection.y + lightDirection.z * lightDirection.z)
  let nx := normal.x / normalLength
  let ny := normal.y / normalLength
  let nz := normal.z / normalLength
  let lx := lightDirection.x / lightLength
  let ly := lightDirection.y / lightLength
  let lz := lightDirection.z / lightLength
  let dotProduct := nx * lx + ny * ly + nz * lz
  F32.max dotProduct (lit 0)

/-! The abscissa of `projectVertex`, stage by stage. -/

/-- The vertex abscissa relative to the camera. -/
def relX (camX X : F32) : F32 := X - camX
/-- The abscissa after the yaw rotation. -/
def rotX (c s z0 x : F32) : F32 := x * c - z0 * s
/-- The depth after the yaw rotation. -/
def rotZ1 (c s z0 x : F32) : F32 := x * s + z0 * c
/-- The ordinate after the pitch rotation. -/
def rotY (cp sp y0 rz : F32) : F32 := y0 * cp - rz * sp
/-- The depth after the pitch rotation. -/
def rotZ (cp sp y0 rz : F32) : F32 := y0 * sp + rz * cp
/-- The dividend of `projectedX`. -/
def numX (m00 rx ry rz : F32) : F32 := m00 * rx + lit 0 * ry + lit 0 * rz + lit 0
/-- The divisor of `projectedX`. -/
def denom (rx ry rz : F32) : F32 := lit 0 * rx + lit 0 * ry + lit (-1) * rz + lit 0
/-- The map from the quotient to the screen abscissa. -/
def toScreen (w p : F32) : F32 := (p + lit 1) * lit (1 / 2) * w

/-- The abscissa that `projectVertex` computes, as a function of the abscissa `X` of the
vertex. -/
def screenX (m00 c s cp sp y0 z0 camX w : F32) (X : F32) : F32 :=
  toScreen w
    (numX m00 (rotX c s z0 (relX camX X))
        (rotY cp sp y0 (rotZ1 c s z0 (relX camX X)))
        (rotZ cp sp y0 (rotZ1 c s z0 (relX camX X)))
      / denom (rotX c s z0 (relX camX X))
        (rotY cp sp y0 (rotZ1 c s z0 (relX camX X)))
        (rotZ cp sp y0 (rotZ1 c s z0 (relX camX X))))

end Binary32

/-- The values of a binary32 libm at the arguments the examples use: `tanf(45)` is
13587659 / 2^23, `cosf(0) = 1`, `sinf(0) = 0`, `sqrtf(0) = 0`, `sqrtf(9) = 3` and
`sqrtf(75)` is 9080935 / 2^20; NaN elsewhere. -/
def sampleLibm32 : Libm F32 where
  tan := fun x => if x = F32.num false 45 then F32.num false (13587659 / 8388608) else F32.nan
  cos := fun x => if x = F32.num false 0 then F32.num false 1 else F32.nan
  sin := fun x => if x = F32.num false 0 then F32.num false 0 else F32.nan
  sqrt := fun x =>
    if x = F32.num false 0 then F32.num false 0
    else if x = F32.num false 9 then F32.num false 3
    else if x = F32.num false 75 then F32.num false (9080935 / 1048576)
    else F32.nan

/-! ## Definitions that follow the specification -/

section Spec

variable {F : Type} [LinearOrderedField F]

/-- A screen point lies within `[0,width) × [0,height)`. -/
def InViewport (p : Point3D F) (width height : F) : Prop :=
  ∃ x y : F, p.x = fin x ∧ p.y = fin y ∧ 0 ≤ x ∧ x < width ∧ 0 ≤ y ∧ y < height

/-- A face has its three indices inside a vertex sequence of length `n`. -/
def Face.InRange (face : Face) (n : Nat) : Prop :=
  (0 ≤ face.v1 ∧ face.v1 < n) ∧ (0 ≤ face.v2 ∧ face.v2 < n) ∧ (0 ≤ face.v3 ∧ face.v3 < n)

/-- The vertex a face index refers to, for an index that is in range. -/
def vertexOf (vertices : List (Vertex F)) (i : Int) : Vertex F :=
  (vertices[i.toNat]?).getD ⟨0, 0, 0⟩

/-- What the frame driver submits for one face: nothing when the visibility filter
rejects the projected triangle, and otherwise the projected points, white, and the
intensity of the object-space triangle. -/
def submission (L : Libm F) (camera : Camera F) (lightSource : LightSource F)
    (vertices : List (Vertex F)) (width height : F) (face : Face) : Option (DrawCall F) :=
  let a := vertexOf vertices face.v1
  let b := vertexOf vertices face.v2
  let c := vertexOf vertices face.v3
  let p1 := projectVertex L camera a width height
  let p2 := projectVertex L camera b width height
  let p3 := projectVertex L camera c width height
  if isTriangleView p1 p2 p3 width height then
    some ⟨p1, p2, p3, 255, 255, 255, calculateLighting L (calculateNormal a b c) lightSource⟩
  else none

/-- The vertex that a `v` line contributes. -/
def Line.vertex? : Line F → Option (Vertex F)
  | Line.v x y z => some ⟨x, y, z⟩
  | _ => none

/-- The face that an `f` line contributes: its three field values, each decremented in
32 bits. -/
def Line.face? : Line F → Option Face
  | Line.f i1 i2 i3 => some ⟨wrapInt32 (i1 - 1), wrapInt32 (i2 - 1), wrapInt32 (i3 - 1)⟩
  | _ => none

/-- The integer is a value of a 32-bit `int`. -/
def IsInt32 (i : Int) : Prop :=
  -2147483648 ≤ i ∧ i ≤ 2147483647

end Spec

/-- A libm on the rationals that is exact at the arguments the examples use (`cos 0`,
`sin 0`, the square roots of 0, 1 and 4) and takes `tan 45` (45 radians) to four
decimals. -/
def sampleLibm : Libm ℚ where
  tan := fun x => if x = 45 then 16198 / 10000 else 0
  cos := fun x => if x = 0 then 1 else 0
  sin := fun _ => 0
  sqrt := fun x => if x = 1 then 1 else if x = 4 then 2 else 0

/-! ## Float arithmetic lemmas -/

section Lemmas

variable {F : Type} [LinearOrderedField F]

@[simp] theorem fin_add_fin (a b : F) : (fin a + fin b : Flt F) = fin (a + b) := rfl
@[simp] theorem fin_sub_fin (a b : F) : (fin a - fin b : Flt F) = fin (a - b) := rfl
@[simp] theorem fin_mul_fin (a b : F) : (fin a * fin b : Flt F) = fin (a * b) := rfl
@[simp] theorem undef_add (a : Flt F) : (undef + a : Flt F) = undef := rfl
@[simp] theorem undef_sub (a : Flt F) : (undef - a : Flt F) = undef := rfl
@[simp] theorem undef_mul (a : Flt F) : (undef * a : Flt F) = undef := rfl
@[simp] theorem undef_div (a : Flt F) : (undef / a : Flt F) = undef := rfl
@[simp] theorem add_undef (a : Flt F) : (a + undef : Flt F) = undef := by cases a <;> rfl
@[simp] theorem sub_undef (a : Flt F) : (a - undef : Flt F) = undef := by cases a <;> rfl
@[simp] theorem mul_undef (a : Flt F) : (a * undef : Flt F) = undef := by cases a <;> rfl
@[simp] theorem div_undef (a : Flt F) : (a / undef : Flt F) = undef := by cases a <;> rfl

theorem fin_div_fin (a b : F) :
    (fin a / fin b : Flt F) = if b = 0 then undef else fin (a / b) := rfl

@[simp] theorem fin_div_zero (a : F) : (fin a / fin 0 : Flt F) = undef := by
  simp [fin_div_fin]

theorem fin_div_of_ne {b : F} (hb : b ≠ 0) (a : F) : (fin a / fin b : Flt F) = fin (a / b) := by
  simp [fin_div_fin, hb]

@[simp] theorem ge_fin_fin (a b : F) : Flt.ge (fin a) (fin b) = decide (b ≤ a) := rfl
@[simp] theorem lt_fin_fin (a b : F) : Flt.lt (fin a) (fin b) = decide (a < b) := rfl
@[simp] theorem ge_undef_left (b : Flt F) : Flt.ge (undef : Flt F) b = false := rfl
@[simp] theorem lt_undef_left (b : Flt F) : Flt.lt (undef : Flt F) b = false := rfl

section Entries

variable (L : Libm F) (width height : F)

theorem projectionMatrix_00 : projectionMatrix L width height 0 0
    = fin width / fin height * fin (L.tan (90 * (1 / 2))) := rfl
theorem projectionMatrix_01 : projectionMatrix L width height 0 1 = fin 0 := rfl
theorem projectionMatrix_02 : projectionMatrix L width height 0 2 = fin 0 := rfl
theorem projectionMatrix_03 : projectionMatrix L width height 0 3 = fin 0 := rfl
theorem projectionMatrix_10 : projectionMatrix L width height 1 0 = fin 0 := rfl
theorem projectionMatrix_11 : projectionMatrix L width height 1 1
    = fin (L.tan (90 * (1 / 2))) := rfl
theorem projectionMatrix_12 : projectionMatrix L width height 1 2 = fin 0 := rfl
theorem projectionMatrix_13 : projectionMatrix L width height 1 3 = fin 0 := rfl
theorem projectionMatrix_30 : projectionMatrix L width height 3 0 = fin 0 := rfl
theorem projectionMatrix_31 : projectionMatrix L width height 3 1 = fin 0 := rfl
theorem projectionMatrix_32 : projectionMatrix L width height 3 2 = fin (-1) := rfl
theorem projectionMatrix_33 : projectionMatrix L width height 3 3 = fin 0 := rfl

end Entries

/-- Row 3 of the projection matrix is `(0, 0, -1, 0)`: the divisor is the negated rotated
Z. -/
theorem homogeneousDivisor_eq (L : Libm F) (camera : Camera F) (vertex : Vertex F)
    (width height : F) :
    homogeneousDivisor L camera vertex width height
      = fin (-(rotated L camera vertex).2.2) := by
  simp only [homogeneousDivisor, projectionMatrix_30, projectionMatrix_31, projectionMatrix_32,
    projectionMatrix_33, fin_mul_fin, fin_add_fin]
  congr 1
  ring

/-- The two quotients of `projectVertex` share the divisor `-rotatedZ`. -/
theorem projectVertex_unfold (L : Libm F) (camera : Camera F) (vertex : Vertex F)
    (width height : F) :
    projectVertex L camera vertex width height =
      ⟨((fin width / fin height * fin (L.tan (90 * (1 / 2)))
            * fin (rotated L camera vertex).1)
          / fin (-(rotated L camera vertex).2.2) + fin 1) * fin (1 / 2) * fin width,
        (fin 1 - fin (L.tan (90 * (1 / 2)) * (rotated L camera vertex).2.1)
          / fin (-(rotated L camera vertex).2.2)) * fin (1 / 2) * fin height,
        fin 0⟩ := by
  have hx : ∀ a : Flt F, ∀ b c : F, a + fin (0 * b) + fin (0 * c) + fin 0 = a := by
    intro a b c
    cases a <;> simp
  simp only [projectVertex, projectionMatrix_00, projectionMatrix_01, projectionMatrix_02,
    projectionMatrix_03, projectionMatrix_10, projectionMatrix_11, projectionMatrix_12,
    projectionMatrix_13, projectionMatrix_30, projectionMatrix_31, projectionMatrix_32,
    projectionMatrix_33, fin_mul_fin, fin_add_fin, hx]
  have e1 : (0 * (rotated L camera vertex).1 + 0 * (rotated L camera vertex).2.1
      + -1 * (rotated L camera vertex).2.2 + 0 : F) = -(rotated L camera vertex).2.2 := by ring
  have e2 : (0 * (rotated L camera vertex).1
      + L.tan (90 * (1 / 2)) * (rotated L camera vertex).2.1
      + 0 * (rotated L camera vertex).2.2 + 0 : F)
      = L.tan (90 * (1 / 2)) * (rotated L camera vertex).2.1 := by ring
  rw [e1, e2]

/-- With a non-zero height and a non-zero divisor both screen coordinates are finite. -/
theorem projectVertex_of_ne (L : Libm F) (camera : Camera F) (vertex : Vertex F)
    (width height : F) (hh : height ≠ 0) (hz : (rotated L camera vertex).2.2 ≠ 0) :
    projectVertex L camera vertex width height =
      ⟨fin ((width / height * L.tan (90 * (1 / 2)) * (rotated L camera vertex).1
              / (-(rotated L camera vertex).2.2) + 1) * (1 / 2) * width),
        fin ((1 - L.tan (90 * (1 / 2)) * (rotated L camera vertex).2.1
              / (-(rotated L camera vertex).2.2)) * (1 / 2) * height),
        fin 0⟩ := by
  have hz2 : -(rotated L camera vertex).2.2 ≠ 0 := neg_ne_zero.mpr hz
  rw [projectVertex_unfold]
  simp only [fin_div_of_ne hh, fin_div_of_ne hz2, fin_mul_fin, fin_add_fin, fin_sub_fin]

/-- With a zero divisor both screen coordinates are non-finite. -/
theorem projectVertex_of_eq_zero (L : Libm F) (camera : Camera F) (vertex : Vertex F)
    (width height : F) (hz : (rotated L camera vertex).2.2 = 0) :
    (projectVertex L camera vertex width height).x = undef ∧
      (projectVertex L camera vertex width height).y = undef := by
  rw [projectVertex_unfold, hz]
  constructor
  · cases (fin width / fin height * fin (L.tan (90 * (1 / 2)))
      * fin (rotated L camera vertex).1 : Flt F) <;> simp
  · simp

/-- The in-rectangle test of `isTriangleView` on one point. -/
theorem inside_iff (p : Point3D F) (width height : F) :
    (Flt.ge p.x (fin 0) && Flt.lt p.x (fin width) && Flt.ge p.y (fin 0)
        && Flt.lt p.y (fin height)) = true ↔ InViewport p width height := by
  obtain ⟨px, py, pz⟩ := p
  cases px with
  | undef => simp [InViewport]
  | fin a =>
    cases py with
    | undef => simp [InViewport]
    | fin b =>
      simp only [InViewport, ge_fin_fin, lt_fin_fin, Bool.and_eq_true, decide_eq_true_eq]
      constructor
      · rintro ⟨⟨⟨h1, h2⟩, h3⟩, h4⟩
        exact ⟨a, b, rfl, rfl, h1, h2, h3, h4⟩
      · rintro ⟨x, y, hx, hy, h1, h2, h3, h4⟩
        cases hx
        cases hy
        exact ⟨⟨⟨h1, h2⟩, h3⟩, h4⟩

/-- The disjunction of `isTriangleView`, point by point. -/
theorem isTriangleView_true_iff (p1 p2 p3 : Point3D F) (width height : F) :
    isTriangleView p1 p2 p3 width height = true ↔
      InViewport p1 width height ∨ InViewport p2 width height ∨ InViewport p3 width height := by
  unfold isTriangleView
  rw [Bool.or_eq_true, Bool.or_eq_true, inside_iff, inside_iff, inside_iff, or_assoc]

/-- With yaw = pitch = 0 and the camera at the origin the rotation is the identity on the
vertex with Z negated. -/
theorem rotated_origin (L : Libm F) (speed : F) (v : Vertex F)
    (hc : L.cos 0 = 1) (hs : L.sin 0 = 0) :
    rotated L ⟨0, 0, 0, 0, 0, speed⟩ v = (v.x, v.y, -v.z) := by
  simp [rotated, hc, hs]

/-- The guarded division of api.hpp returns the zero point for the divisor 0. -/
theorem divScalar_zero (p : Point3D F) : p.divScalar 0 = ⟨fin 0, fin 0, fin 0⟩ := by
  simp [Point3D.divScalar]

@[simp] theorem max_undef_left (b : Flt F) : Flt.max (undef : Flt F) b = undef := rfl

/-- The intensity for the zero normal, with `sqrt 0 = 0`: the normalisation divides by
zero. -/
theorem calculateLighting_zero_normal (L : Libm F) (light : LightSource F)
    (hs : L.sqrt 0 = 0) : calculateLighting L ⟨0, 0, 0⟩ light = undef := by
  simp [calculateLighting, hs]

/-- The decrement of the least 32-bit `int` wraps to the greatest. -/
theorem wrapInt32_int_min : wrapInt32 (-2147483648 - 1) = 2147483647 := by decide

/-- The decrement of any other 32-bit `int` is exact. -/
theorem wrapInt32_pred (i : Int) (h : IsInt32 i) (hmin : i ≠ -2147483648) :
    wrapInt32 (i - 1) = i - 1 := by
  obtain ⟨h0, h1⟩ := h
  unfold wrapInt32
  omega

/-- The line `f 1/1/1 2/2/2 3/3/3`: the first extraction reads 1, the second fails on the
slash and writes 0, the third is not reached and leaves the indeterminate `g`.  The face
is stored all the same, as `(0, -1, g - 1)`. -/
theorem loadLine_failed_extraction {K : Type} (m : Mesh K) (g : Int) :
    (loadLine m (Line.f 1 0 g)).faces = m.faces ++ [⟨0, -1, wrapInt32 (g - 1)⟩] := by
  simp [loadLine, wrapInt32]

/-- The loop of `loadObj` appends the vertices of the `v` lines and the faces of the `f`
lines, in file order. -/
theorem foldl_loadLine {K : Type} (lines : List (Line K)) (m : Mesh K) :
    lines.foldl loadLine m
      = ⟨m.vertices ++ lines.filterMap Line.vertex?, m.faces ++ lines.filterMap Line.face?⟩ := by
  induction lines generalizing m with
  | nil => simp
  | cons l ls ih =>
    rw [List.foldl_cons, ih]
    cases l <;> simp [loadLine, Line.vertex?, Line.face?]

/-- An index in range is read inside the vector. -/
theorem vertexAt_of_inRange (vertices : List (Vertex F)) (i : Int)
    (h0 : 0 ≤ i) (h1 : i < vertices.length) :
    vertexAt vertices i = some (vertexOf vertices i) := by
  have hlt : i.toNat < vertices.length := by omega
  simp [vertexAt, vertexOf, h0, List.getElem?_eq_getElem hlt]

/-- An index in range is read inside the vector, whatever the type of the elements. -/
theorem vertexAt_isSome {K : Type} (vertices : List (Vertex K)) (i : Int)
    (h0 : 0 ≤ i) (h1 : i < vertices.length) :
    (vertexAt vertices i).isSome = true := by
  have hlt : i.toNat < vertices.length := by omega
  simp [vertexAt, h0, List.getElem?_eq_getElem hlt]

/-- One iteration of the loop of `renderModel` on a face in range. -/
theorem renderFace_of_inRange (L : Libm F) (camera : Camera F) (lightSource : LightSource F)
    (vertices : List (Vertex F)) (width height : F) (calls : List (DrawCall F)) (face : Face)
    (h : face.InRange vertices.length) :
    renderFace L camera lightSource vertices width height calls face
      = some (calls ++
          (submission L camera lightSource vertices width height face).toList) := by
  obtain ⟨⟨a0, a1⟩, ⟨b0, b1⟩, ⟨c0, c1⟩⟩ := h
  simp only [renderFace, vertexAt_of_inRange vertices _ a0 a1,
    vertexAt_of_inRange vertices _ b0 b1, vertexAt_of_inRange vertices _ c0 c1,
    submission, Option.bind_eq_bind, Option.some_bind]
  split_ifs <;> simp

/-- The loop of `renderModel` from any sequence of earlier submissions. -/
theorem foldlM_renderFace (L : Libm F) (camera : Camera F) (lightSource : LightSource F)
    (vertices : List (Vertex F)) (width height : F) (faces : List Face)
    (h : ∀ face ∈ faces, face.InRange vertices.length) (calls : List (DrawCall F)) :
    faces.foldlM (renderFace L camera lightSource vertices width height) calls
      = some (calls ++
          faces.filterMap (submission L camera lightSource vertices width height)) := by
  induction faces generalizing calls with
  | nil => simp
  | cons f fs ih =>
    have hf := h f (List.mem_cons_self f fs)
    have hfs : ∀ face ∈ fs, face.InRange vertices.length :=
      fun face hm => h face (List.mem_cons_of_mem f hm)
    rw [List.foldlM_cons, renderFace_of_inRange L camera lightSource vertices width height
      calls f hf, Option.bind_eq_bind, Option.some_bind, ih hfs]
    cases hsub : submission L camera lightSource vertices width height f <;>
      simp [List.filterMap_cons, hsub]

/-- In exact arithmetic, with the camera at the origin and yaw = pitch = 0, the distance of
the projected abscissa from half the width is strictly increasing in the absolute lateral
offset. -/
theorem projectVertex_lateral_exact (L : Libm F) (speed width height : F)
    (x1 x2 y z : F) (hc : L.cos 0 = 1) (hs : L.sin 0 = 0) (ht : L.tan 45 ≠ 0)
    (hw : 0 < width) (hh : 0 < height) (hz : z ≠ 0) :
    ∃ a b : F,
      (projectVertex L ⟨0, 0, 0, 0, 0, speed⟩ ⟨x1, y, z⟩ width height).x = fin a ∧
      (projectVertex L ⟨0, 0, 0, 0, 0, speed⟩ ⟨x2, y, z⟩ width height).x = fin b ∧
      (|x1| < |x2| → |a - width / 2| < |b - width / 2|) ∧
      (|x1| = |x2| → |a - width / 2| = |b - width / 2|) := by
  have e45 : (90 * (1 / 2) : F) = 45 := by norm_num
  have hh0 : height ≠ 0 := ne_of_gt hh
  have hw0 : width ≠ 0 := ne_of_gt hw
  have hp : ∀ x : F, (projectVertex L ⟨0, 0, 0, 0, 0, speed⟩ ⟨x, y, z⟩ width height).x =
      fin ((width / height * L.tan 45 * x / z + 1) * (1 / 2) * width) := by
    intro x
    have hr := rotated_origin L speed ⟨x, y, z⟩ hc hs
    have hz2 : (rotated L ⟨0, 0, 0, 0, 0, speed⟩ ⟨x, y, z⟩).2.2 ≠ 0 := by
      rw [hr]; exact neg_ne_zero.mpr hz
    rw [projectVertex_of_ne L _ _ width height hh0 hz2, hr, e45]
    simp
  have hk : ∀ x : F, (width / height * L.tan 45 * x / z + 1) * (1 / 2) * width - width / 2
      = (width * width * L.tan 45 / (2 * height * z)) * x := by
    intro x
    field_simp
    ring
  have hK : 0 < |width * width * L.tan 45 / (2 * height * z)| := by
    apply abs_pos.mpr
    apply div_ne_zero
    · exact mul_ne_zero (mul_ne_zero hw0 hw0) ht
    · exact mul_ne_zero (mul_ne_zero two_ne_zero hh0) hz
  refine ⟨_, _, hp x1, hp x2, ?_, ?_⟩
  · intro hlt
    rw [hk, hk, abs_mul, abs_mul]
    exact mul_lt_mul_of_pos_left hlt hK
  · intro heq
    rw [hk, hk, abs_mul, abs_mul, heq]


end Lemmas

/-! ## Binary32 lemmas -/

namespace F32

theorem pow2_eq (e : Int) : pow2 e = (2 : ℚ) ^ e := by
  unfold pow2
  split_ifs with h
  · obtain ⟨n, rfl⟩ := Int.eq_ofNat_of_zero_le h
    simp
  · push_neg at h
    obtain ⟨n, hn⟩ := Int.exists_eq_neg_ofNat (le_of_lt h)
    subst hn
    simp

theorem pow2_pos (e : Int) : 0 < pow2 e := by
  rw [pow2_eq]; positivity

theorem pow2_succ (e : Int) : pow2 (e + 1) = 2 * pow2 e := by
  rw [pow2_eq, pow2_eq, zpow_add_one₀ (by norm_num : (2 : ℚ) ≠ 0)]; ring

theorem pow2_mono {e f : Int} (h : e ≤ f) : pow2 e ≤ pow2 f := by
  rw [pow2_eq, pow2_eq]
  exact zpow_le_of_le (by norm_num) h

/-- What the exponent search returns. -/
theorem binade_spec (fuel : Nat) (e : Int) (a : ℚ) :
    e - fuel ≤ binade fuel e a ∧ binade fuel e a ≤ e ∧
    (e - fuel < binade fuel e a → pow2 (binade fuel e a) ≤ a) ∧
    (binade fuel e a < e → a < pow2 (binade fuel e a + 1)) := by
  induction fuel generalizing e with
  | zero => simp [binade]
  | succ n ih =>
    unfold binade
    split_ifs with h
    · refine ⟨by push_cast; omega, le_refl _, fun _ => h, fun hlt => absurd hlt (lt_irrefl _)⟩
    · obtain ⟨h1, h2, h3, h4⟩ := ih (e - 1)
      refine ⟨by push_cast; omega, by omega, fun hlt => h3 (by push_cast at hlt; omega), ?_⟩
      intro _
      by_cases hc : binade n (e - 1) a < e - 1
      · exact h4 hc
      · have : binade n (e - 1) a = e - 1 := by omega
        rw [this]
        simpa using lt_of_not_le h

theorem exponent_spec (a : ℚ) :
    -126 ≤ exponent a ∧ exponent a ≤ 127 ∧
    (-126 < exponent a → pow2 (exponent a) ≤ a) ∧
    (exponent a < 127 → a < pow2 (exponent a + 1)) := by
  have h := binade_spec 253 127 a
  unfold exponent
  obtain ⟨h1, h2, h3, h4⟩ := h
  refine ⟨by push_cast at h1; omega, h2, fun hlt => h3 (by push_cast; omega), h4⟩

theorem exponent_mono {a b : ℚ} (h : a ≤ b) : exponent a ≤ exponent b := by
  obtain ⟨a1, a2, a3, a4⟩ := exponent_spec a
  obtain ⟨b1, b2, b3, b4⟩ := exponent_spec b
  by_contra hc
  push_neg at hc
  have ha : pow2 (exponent a) ≤ a := a3 (by omega)
  have hb : b < pow2 (exponent b + 1) := b4 (by omega)
  have : pow2 (exponent b + 1) ≤ pow2 (exponent a) := pow2_mono (by omega)
  linarith

theorem roundEven_cases (s : ℚ) : roundEven s = ⌊s⌋ ∨ roundEven s = ⌊s⌋ + 1 := by
  unfold roundEven
  simp only
  split_ifs <;> simp

theorem roundEven_intCast (n : Int) : roundEven (n : ℚ) = n := by
  unfold roundEven
  simp

theorem roundEven_mono {s t : ℚ} (h : s ≤ t) : roundEven s ≤ roundEven t := by
  have hf : ⌊s⌋ ≤ ⌊t⌋ := Int.floor_mono h
  rcases lt_or_eq_of_le hf with hlt | heq
  · have h1 : roundEven s ≤ ⌊s⌋ + 1 := by
      rcases roundEven_cases s with e | e <;> rw [e] <;> omega
    have h2 : ⌊t⌋ ≤ roundEven t := by
      rcases roundEven_cases t with e | e <;> rw [e] <;> omega
    omega
  · unfold roundEven
    simp only
    rw [← heq]
    have hst : s - ⌊s⌋ ≤ t - ⌊s⌋ := by linarith
    split_ifs <;> first | omega | linarith | (exfalso; linarith)


theorem roundEven_nonneg {s : ℚ} (h : 0 ≤ s) : 0 ≤ roundEven s := by
  have := roundEven_mono h
  rwa [show roundEven 0 = 0 from by simpa using roundEven_intCast 0] at this

theorem roundMag_nonneg {a : ℚ} (ha : 0 ≤ a) : 0 ≤ roundMag a := by
  unfold roundMag
  have hu := pow2_pos (exponent a - 23)
  have : 0 ≤ roundEven (a / pow2 (exponent a - 23)) := roundEven_nonneg (div_nonneg ha hu.le)
  have h2 : (0 : ℚ) ≤ (roundEven (a / pow2 (exponent a - 23)) : ℚ) := by exact_mod_cast this
  positivity

theorem pow2_add (e f : Int) : pow2 (e + f) = pow2 e * pow2 f := by
  rw [pow2_eq, pow2_eq, pow2_eq, zpow_add₀ (by norm_num : (2 : ℚ) ≠ 0)]

theorem pow2_24 : pow2 24 = 16777216 := by decide!
theorem pow2_23 : pow2 23 = 8388608 := by decide!

theorem roundMag_mono {a b : ℚ} (h : a ≤ b) : roundMag a ≤ roundMag b := by
  have he := exponent_mono h
  obtain ⟨a1, a2, a3, a4⟩ := exponent_spec a
  obtain ⟨b1, b2, b3, b4⟩ := exponent_spec b
  rcases lt_or_eq_of_le he with hlt | heq
  · -- different binades
    have hua := pow2_pos (exponent a - 23)
    have hub := pow2_pos (exponent b - 23)
    have ha : a < pow2 (exponent a + 1) := a4 (by omega)
    have hb : pow2 (exponent b) ≤ b := b3 (by omega)
    have e1 : pow2 (exponent a + 1) = 16777216 * pow2 (exponent a - 23) := by
      rw [← pow2_24, ← pow2_add]; congr 1; ring
    have e2 : pow2 (exponent b) = 8388608 * pow2 (exponent b - 23) := by
      rw [← pow2_23, ← pow2_add]; congr 1; ring
    have s1 : a / pow2 (exponent a - 23) ≤ ((16777216 : Int) : ℚ) := by
      rw [div_le_iff₀ hua]; push_cast; linarith
    have s2 : ((8388608 : Int) : ℚ) ≤ b / pow2 (exponent b - 23) := by
      rw [le_div_iff₀ hub]; push_cast; linarith
    have r1 := roundEven_mono s1
    have r2 := roundEven_mono s2
    rw [roundEven_intCast] at r1 r2
    have q1 : (roundEven (a / pow2 (exponent a - 23)) : ℚ) ≤ 16777216 := by exact_mod_cast r1
    have q2 : (8388608 : ℚ) ≤ (roundEven (b / pow2 (exponent b - 23)) : ℚ) := by
      exact_mod_cast r2
    have m1 : roundMag a ≤ pow2 (exponent a + 1) := by
      unfold roundMag; rw [e1]; exact mul_le_mul_of_nonneg_right q1 hua.le
    have m2 : pow2 (exponent b) ≤ roundMag b := by
      unfold roundMag; rw [e2]; exact mul_le_mul_of_nonneg_right q2 hub.le
    have m3 : pow2 (exponent a + 1) ≤ pow2 (exponent b) := pow2_mono (by omega)
    linarith
  · unfold roundMag
    rw [heq]
    have hub := pow2_pos (exponent b - 23)
    have : roundEven (a / pow2 (exponent b - 23)) ≤ roundEven (b / pow2 (exponent b - 23)) :=
      roundEven_mono (div_le_div_of_nonneg_right h hub.le)
    have h2 : (roundEven (a / pow2 (exponent b - 23)) : ℚ)
        ≤ (roundEven (b / pow2 (exponent b - 23)) : ℚ) := by exact_mod_cast this
    exact mul_le_mul_of_nonneg_right h2 hub.le

theorem RN_zero : RN 0 = 0 := by simp [RN]

theorem RN_nonneg {r : ℚ} (h : 0 ≤ r) : 0 ≤ RN r := by
  unfold RN
  split_ifs with h0
  · exact le_refl 0
  · have : ¬ r < 0 := not_lt.mpr h
    simp only [this, decide_False, signed]
    exact roundMag_nonneg (abs_nonneg r)

theorem RN_nonpos {r : ℚ} (h : r ≤ 0) : RN r ≤ 0 := by
  unfold RN
  split_ifs with h0
  · exact le_refl 0
  · have : r < 0 := lt_of_le_of_ne h h0
    simp only [this, decide_True, signed, if_true]
    have := roundMag_nonneg (abs_nonneg r)
    linarith

theorem RN_mono : Monotone RN := by
  intro r t h
  rcases le_or_lt r 0 with hr | hr
  · rcases le_or_lt 0 t with ht | ht
    · exact le_trans (RN_nonpos hr) (RN_nonneg ht)
    · -- both negative
      have hr' : r < 0 := lt_of_le_of_lt h ht
      unfold RN
      simp only [ne_of_lt hr', ne_of_lt ht, if_false, hr', ht, decide_True, signed, if_true]
      rw [abs_of_neg hr', abs_of_neg ht]
      have := roundMag_mono (show -t ≤ -r by linarith)
      linarith
  · have ht : 0 < t := lt_of_lt_of_le hr h
    unfold RN
    simp only [ne_of_gt hr, ne_of_gt ht, if_false, not_lt.mpr hr.le, not_lt.mpr ht.le,
      decide_False, signed]
    rw [abs_of_pos hr, abs_of_pos ht]
    exact roundMag_mono h


@[simp] theorem signed_zero (s : Bool) : signed s 0 = 0 := by
  cases s <;> simp [signed]

theorem signed_eq_zero {s : Bool} {a : ℚ} : signed s a = 0 ↔ a = 0 := by
  cases s <;> simp [signed]

theorem signed_not (s : Bool) (a : ℚ) : signed (!s) a = -signed s a := by
  cases s <;> simp [signed]

@[simp] theorem add_def (x y : F32) : x + y = add x y := rfl
@[simp] theorem sub_def (x y : F32) : x - y = add x (neg y) := rfl
@[simp] theorem mul_def (x y : F32) : x * y = mul x y := rfl
@[simp] theorem div_def (x y : F32) : x / y = div x y := rfl
@[simp] theorem neg_def (x : F32) : -x = neg x := rfl

theorem ofRat_cases (z : Bool) (r : ℚ) :
    (r = 0 ∧ ofRat z r = num z 0) ∨
    (r ≠ 0 ∧ ofRat z r = inf (decide (r < 0))) ∨
    (r ≠ 0 ∧ ofRat z r = num (decide (r < 0)) (roundMag |r|)) := by
  unfold ofRat round
  by_cases h : r = 0
  · left; simp [h]
  · right
    by_cases ho : pow2 128 ≤ roundMag |r|
    · left; simp [h, ho]
    · right; simp [h, ho]

theorem val_ofRat {z : Bool} {r : ℚ} (h : IsFinite (ofRat z r)) : val (ofRat z r) = RN r := by
  rcases ofRat_cases z r with ⟨h0, e⟩ | ⟨h0, e⟩ | ⟨h0, e⟩
  · rw [e, h0]; simp [val, RN]
  · rw [e] at h; exact absurd h (by simp [IsFinite])
  · rw [e]; simp [val, RN, h0]

theorem val_neg (x : F32) : val (neg x) = -val x := by
  cases x <;> simp [neg, val, signed_not]

theorem isFinite_neg {x : F32} : IsFinite (neg x) ↔ IsFinite x := by
  cases x <;> simp [neg, IsFinite]

theorem add_finite {x y : F32} (h : IsFinite (add x y)) :
    IsFinite x ∧ IsFinite y ∧ val (add x y) = RN (val x + val y) := by
  cases x with
  | nan => simp [add, IsFinite] at h
  | inf s =>
    cases y with
    | nan => simp [add, IsFinite] at h
    | inf t =>
      simp only [add] at h
      split_ifs at h <;> simp [IsFinite] at h
    | num t b => simp [add, IsFinite] at h
  | num s a =>
    cases y with
    | nan => simp [add, IsFinite] at h
    | inf t => simp [add, IsFinite] at h
    | num t b =>
      simp only [add] at h ⊢
      exact ⟨trivial, trivial, val_ofRat h⟩

theorem sub_finite {x y : F32} (h : IsFinite (add x (neg y))) :
    IsFinite x ∧ IsFinite y ∧ val (add x (neg y)) = RN (val x - val y) := by
  obtain ⟨h1, h2, h3⟩ := add_finite h
  refine ⟨h1, isFinite_neg.mp h2, ?_⟩
  rw [h3, val_neg, sub_eq_add_neg]

theorem mul_finite {x y : F32} (h : IsFinite (mul x y)) :
    IsFinite x ∧ IsFinite y ∧ val (mul x y) = RN (val x * val y) := by
  cases x with
  | nan => simp [mul, IsFinite] at h
  | inf s =>
    cases y with
    | nan => simp [mul, IsFinite] at h
    | inf t => simp [mul, IsFinite] at h
    | num t b =>
      simp only [mul] at h
      split_ifs at h <;> simp [IsFinite] at h
  | num s a =>
    cases y with
    | nan => simp [mul, IsFinite] at h
    | inf t =>
      simp only [mul] at h
      split_ifs at h <;> simp [IsFinite] at h
    | num t b =>
      simp only [mul] at h ⊢
      exact ⟨trivial, trivial, val_ofRat h⟩

theorem div_finite {x y : F32} (h : IsFinite (div x y)) :
    IsFinite x ∧
      ((IsFinite y ∧ val y ≠ 0 ∧ val (div x y) = RN (val x / val y)) ∨
        ((∃ t, y = inf t) ∧ val (div x y) = 0)) := by
  cases x with
  | nan => simp [div, IsFinite] at h
  | inf s =>
    cases y with
    | nan => simp [div, IsFinite] at h
    | inf t => simp [div, IsFinite] at h
    | num t b => simp [div, IsFinite] at h
  | num s a =>
    cases y with
    | nan => simp [div, IsFinite] at h
    | inf t =>
      refine ⟨trivial, Or.inr ⟨⟨t, rfl⟩, ?_⟩⟩
      simp [div, val]
    | num t b =>
      simp only [div] at h ⊢
      by_cases hb : b = 0
      · rw [if_pos hb] at h
        split_ifs at h <;> simp [IsFinite] at h
      · rw [if_neg hb] at h ⊢
        refine ⟨trivial, Or.inl ⟨trivial, ?_, val_ofRat h⟩⟩
        simpa [val, signed_eq_zero] using hb

theorem Sim.rfl' (x : F32) : Sim x x := Or.inl rfl

theorem Sim.val_eq {x y : F32} (h : Sim x y) : val x = val y := by
  rcases h with rfl | ⟨s, t, rfl, rfl⟩
  · rfl
  · simp [val]

theorem Sim.eq_of_val_ne {x y : F32} (h : Sim x y) (hv : val x ≠ 0) : x = y := by
  rcases h with rfl | ⟨s, t, rfl, rfl⟩
  · rfl
  · simp [val] at hv

theorem Sim.eq_of_not_finite {x y : F32} (h : Sim x y) (hv : ¬ IsFinite x) : x = y := by
  rcases h with rfl | ⟨s, t, rfl, rfl⟩
  · rfl
  · simp [IsFinite] at hv

theorem ofRat_sim (z w : Bool) (r : ℚ) : Sim (ofRat z r) (ofRat w r) := by
  unfold ofRat
  by_cases h : r = 0
  · right; exact ⟨z, w, by simp [h], by simp [h]⟩
  · left; simp [h]

theorem Sim.neg {x y : F32} (h : Sim x y) : Sim (neg x) (neg y) := by
  rcases h with rfl | ⟨s, t, rfl, rfl⟩
  · exact Or.inl rfl
  · exact Or.inr ⟨!s, !t, rfl, rfl⟩

theorem Sim.add_left {x x' : F32} (h : Sim x x') (y : F32) : Sim (add x y) (add x' y) := by
  rcases h with rfl | ⟨s, t, rfl, rfl⟩
  · exact Or.inl rfl
  · cases y with
    | nan => exact Or.inl rfl
    | inf u => exact Or.inl rfl
    | num u b =>
      simp only [add, signed_zero]
      exact ofRat_sim _ _ _

theorem Sim.add_right (x : F32) {y y' : F32} (h : Sim y y') : Sim (add x y) (add x y') := by
  rcases h with rfl | ⟨s, t, rfl, rfl⟩
  · exact Or.inl rfl
  · cases x with
    | nan => exact Or.inl rfl
    | inf u => exact Or.inl rfl
    | num u b =>
      simp only [add, signed_zero]
      exact ofRat_sim _ _ _

theorem Sim.trans' {x y z : F32} (h1 : Sim x y) (h2 : Sim y z) : Sim x z := by
  rcases h1 with rfl | ⟨s, t, rfl, rfl⟩
  · exact h2
  · rcases h2 with rfl | ⟨s', t', e, rfl⟩
    · exact Or.inr ⟨s, t, rfl, rfl⟩
    · exact Or.inr ⟨s, t', rfl, rfl⟩

theorem Sim.add {x x' y y' : F32} (h1 : Sim x x') (h2 : Sim y y') :
    Sim (add x y) (add x' y') :=
  (h1.add_left y).trans' (Sim.add_right x' h2)

theorem Sim.mul_left {x x' : F32} (h : Sim x x') (y : F32) : Sim (mul x y) (mul x' y) := by
  rcases h with rfl | ⟨s, t, rfl, rfl⟩
  · exact Or.inl rfl
  · cases y with
    | nan => exact Or.inl rfl
    | inf u => simp [mul]; exact Or.inl rfl
    | num u b =>
      simp only [mul, signed_zero, zero_mul]
      exact ofRat_sim _ _ _

theorem Sim.mul_right (x : F32) {y y' : F32} (h : Sim y y') : Sim (mul x y) (mul x y') := by
  rcases h with rfl | ⟨s, t, rfl, rfl⟩
  · exact Or.inl rfl
  · cases x with
    | nan => exact Or.inl rfl
    | inf u => simp [mul]; exact Or.inl rfl
    | num u b =>
      simp only [mul, signed_zero, mul_zero]
      exact ofRat_sim _ _ _

theorem Sim.mul {x x' y y' : F32} (h1 : Sim x x') (h2 : Sim y y') :
    Sim (mul x y) (mul x' y') :=
  (h1.mul_left y).trans' (Sim.mul_right x' h2)

/-- A finite float times a zero is a zero. -/
theorem mul_zero_sim {x x' : F32} (hx : IsFinite x) (hx' : IsFinite x') (z : Bool) :
    Sim (mul x (num z 0)) (mul x' (num z 0)) := by
  cases x <;> cases x' <;> simp [IsFinite] at hx hx'
  simp only [mul, signed_zero, mul_zero]
  exact ofRat_sim _ _ _

theorem zero_mul_sim {x x' : F32} (hx : IsFinite x) (hx' : IsFinite x') (z : Bool) :
    Sim (mul (num z 0) x) (mul (num z 0) x') := by
  cases x <;> cases x' <;> simp [IsFinite] at hx hx'
  simp only [mul, signed_zero, zero_mul]
  exact ofRat_sim _ _ _


theorem lit_zero : lit 0 = num false 0 := by decide!
theorem lit_one : lit 1 = num false 1 := by decide!
theorem lit_half : lit (1 / 2) = num false (1 / 2) := by decide!
theorem lit_neg_one : lit (-1) = num true 1 := by decide!
theorem RN_one : RN 1 = 1 := by decide!
theorem RN_half : RN (1 / 2) = 1 / 2 := by decide!

theorem MonoOrAnti.id : MonoOrAnti (fun t => t) := Or.inl monotone_id

theorem MonoOrAnti.rn {f : ℚ → ℚ} (h : MonoOrAnti f) : MonoOrAnti (fun t => RN (f t)) := by
  rcases h with h | h
  · exact Or.inl (RN_mono.comp h)
  · exact Or.inr (RN_mono.comp_antitone h)

theorem MonoOrAnti.add_const {f : ℚ → ℚ} (h : MonoOrAnti f) (k : ℚ) :
    MonoOrAnti (fun t => f t + k) := by
  rcases h with h | h
  · exact Or.inl (fun a b hab => add_le_add_right (h hab) k)
  · exact Or.inr (fun a b hab => add_le_add_right (h hab) k)

theorem MonoOrAnti.sub_const {f : ℚ → ℚ} (h : MonoOrAnti f) (k : ℚ) :
    MonoOrAnti (fun t => f t - k) := by
  rcases h with h | h
  · exact Or.inl (fun a b hab => sub_le_sub_right (h hab) k)
  · exact Or.inr (fun a b hab => sub_le_sub_right (h hab) k)

theorem MonoOrAnti.mul_const {f : ℚ → ℚ} (h : MonoOrAnti f) (k : ℚ) :
    MonoOrAnti (fun t => f t * k) := by
  rcases le_total 0 k with hk | hk
  · rcases h with h | h
    · exact Or.inl (fun a b hab => mul_le_mul_of_nonneg_right (h hab) hk)
    · exact Or.inr (fun a b hab => mul_le_mul_of_nonneg_right (h hab) hk)
  · rcases h with h | h
    · exact Or.inr (fun a b hab => mul_le_mul_of_nonpos_right (h hab) hk)
    · exact Or.inl (fun a b hab => mul_le_mul_of_nonpos_right (h hab) hk)

theorem MonoOrAnti.const_mul {f : ℚ → ℚ} (h : MonoOrAnti f) (k : ℚ) :
    MonoOrAnti (fun t => k * f t) := by
  have := h.mul_const k
  simpa [MonoOrAnti, mul_comm] using this

theorem MonoOrAnti.div_const {f : ℚ → ℚ} (h : MonoOrAnti f) (k : ℚ) :
    MonoOrAnti (fun t => f t / k) := by
  have := h.mul_const k⁻¹
  simpa [MonoOrAnti, div_eq_mul_inv] using this

/-- A monotone or antitone map sends the nearer of two points on one side of 0 at least
as near to the image of 0. -/
theorem MonoOrAnti.abs_sub_le {G : ℚ → ℚ} (hG : MonoOrAnti G) {u v : ℚ}
    (h : (0 ≤ u ∧ u ≤ v) ∨ (v ≤ u ∧ u ≤ 0)) : |G u - G 0| ≤ |G v - G 0| := by
  rcases hG with hG | hG <;> rcases h with ⟨h0, h1⟩ | ⟨h1, h0⟩
  · have a := hG h0; have b := hG h1
    rw [abs_of_nonneg (by linarith), abs_of_nonneg (by linarith)]; linarith
  · have a := hG h0; have b := hG h1
    rw [abs_of_nonpos (by linarith), abs_of_nonpos (by linarith)]; linarith
  · have a := hG h0; have b := hG h1
    rw [abs_of_nonpos (by linarith), abs_of_nonpos (by linarith)]; linarith
  · have a := hG h0; have b := hG h1
    rw [abs_of_nonneg (by linarith), abs_of_nonneg (by linarith)]; linarith

end F32

namespace Binary32

open F32

theorem projectVertex_x (L : Libm F32) (camera : Camera F32) (vertex : Vertex F32)
    (width height : F32) :
    (projectVertex L camera vertex width height).x
      = screenX (width / height * L.tan (lit 90 * lit (1 / 2))) (L.cos camera.yaw)
          (L.sin camera.yaw) (L.cos camera.pitch) (L.sin camera.pitch)
          (vertex.y - camera.y) (-(vertex.z - camera.z)) camera.x width vertex.x := rfl

theorem toScreen_val {w p : F32} (h : IsFinite (toScreen w p)) :
    IsFinite p ∧ IsFinite w ∧
      val (toScreen w p) = RN (RN (RN (val p + 1) * (1 / 2)) * val w) := by
  unfold toScreen at h ⊢
  simp only [mul_def, add_def] at h ⊢
  obtain ⟨a1, a2, a3⟩ := mul_finite h
  obtain ⟨b1, b2, b3⟩ := mul_finite a1
  obtain ⟨c1, c2, c3⟩ := add_finite b1
  refine ⟨c1, a2, ?_⟩
  rw [a3, b3, c3, lit_one, lit_half]
  simp [val, signed]

theorem relX_val {camX X : F32} (h : IsFinite (relX camX X)) :
    IsFinite X ∧ val (relX camX X) = RN (val X - val camX) := by
  unfold relX at h ⊢
  simp only [sub_def] at h ⊢
  obtain ⟨a1, a2, a3⟩ := sub_finite h
  exact ⟨a1, a3⟩

theorem rotX_val {c z0 x : F32} (h : IsFinite (rotX c (num false 0) z0 x)) :
    IsFinite x ∧ val (rotX c (num false 0) z0 x) = RN (RN (val x * val c) - 0) := by
  unfold rotX at h ⊢
  simp only [sub_def, mul_def] at h ⊢
  obtain ⟨a1, a2, a3⟩ := sub_finite h
  obtain ⟨b1, b2, b3⟩ := mul_finite a1
  obtain ⟨c1, c2, c3⟩ := mul_finite a2
  refine ⟨b1, ?_⟩
  rw [a3, b3, c3]
  simp [val, RN_zero]

theorem numX_val {m00 rx ry rz : F32} (h : IsFinite (numX m00 rx ry rz)) :
    IsFinite rx ∧ IsFinite ry ∧ IsFinite rz ∧
      val (numX m00 rx ry rz) = RN (RN (RN (RN (val m00 * val rx) + 0) + 0) + 0) := by
  unfold numX at h ⊢
  simp only [add_def, mul_def] at h ⊢
  obtain ⟨a1, a2, a3⟩ := add_finite h
  obtain ⟨b1, b2, b3⟩ := add_finite a1
  obtain ⟨c1, c2, c3⟩ := add_finite b1
  obtain ⟨d1, d2, d3⟩ := mul_finite c1
  obtain ⟨e1, e2, e3⟩ := mul_finite c2
  obtain ⟨f1, f2, f3⟩ := mul_finite b2
  refine ⟨d2, e2, f2, ?_⟩
  rw [a3, b3, c3, d3, e3, f3, lit_zero]
  simp [val, RN_zero]

theorem rotZ1_sim (c z0 : F32) {x x' : F32} (hx : IsFinite x) (hx' : IsFinite x') :
    Sim (rotZ1 c (num false 0) z0 x) (rotZ1 c (num false 0) z0 x') := by
  unfold rotZ1
  simp only [add_def, mul_def]
  exact (mul_zero_sim hx hx' false).add_left _

theorem rotY_sim (cp sp y0 : F32) {r r' : F32} (h : Sim r r') :
    Sim (rotY cp sp y0 r) (rotY cp sp y0 r') := by
  unfold rotY
  simp only [sub_def, mul_def]
  exact Sim.add_right _ (h.mul_left sp).neg

theorem rotZ_sim (cp sp y0 : F32) {r r' : F32} (h : Sim r r') :
    Sim (rotZ cp sp y0 r) (rotZ cp sp y0 r') := by
  unfold rotZ
  simp only [add_def, mul_def]
  exact Sim.add_right _ (h.mul_left cp)

theorem denom_sim {rx rx' ry ry' rz rz' : F32} (hx : IsFinite rx) (hx' : IsFinite rx')
    (hy : Sim ry ry') (hz : Sim rz rz') :
    Sim (denom rx ry rz) (denom rx' ry' rz') := by
  unfold denom
  simp only [add_def, mul_def, lit_zero]
  exact ((Sim.add (zero_mul_sim hx hx' false) (Sim.mul_right _ hy)).add
    (Sim.mul_right _ hz)).add_left _


/-- With a zero yaw sine and the camera abscissa 0, the screen abscissa is a monotone or
antitone function of the vertex abscissa wherever it is finite, and maps 0 to half the
width. -/
theorem screenX_lateral (m00 c cp sp y0 z0 w X1 X2 : F32)
    (h1 : IsFinite (screenX m00 c (num false 0) cp sp y0 z0 (num false 0) w X1))
    (h2 : IsFinite (screenX m00 c (num false 0) cp sp y0 z0 (num false 0) w X2))
    (hhalf : RN (1 / 2 * val w) = val w / 2)
    (hx : (0 ≤ val X1 ∧ val X1 ≤ val X2) ∨ (val X2 ≤ val X1 ∧ val X1 ≤ 0)) :
    |val (screenX m00 c (num false 0) cp sp y0 z0 (num false 0) w X1) - val w / 2|
      ≤ |val (screenX m00 c (num false 0) cp sp y0 z0 (num false 0) w X2) - val w / 2| := by
  unfold screenX at h1 h2 ⊢
  obtain ⟨p1, -, v1⟩ := toScreen_val h1
  obtain ⟨p2, -, v2⟩ := toScreen_val h2
  simp only [div_def] at p1 p2 v1 v2 ⊢
  obtain ⟨n1, d1⟩ := div_finite p1
  obtain ⟨n2, d2⟩ := div_finite p2
  obtain ⟨rx1, ry1, rz1, nv1⟩ := numX_val n1
  obtain ⟨rx2, ry2, rz2, nv2⟩ := numX_val n2
  obtain ⟨x1, rv1⟩ := rotX_val rx1
  obtain ⟨x2, rv2⟩ := rotX_val rx2
  obtain ⟨-, xv1⟩ := relX_val x1
  obtain ⟨-, xv2⟩ := relX_val x2
  have hz1 := rotZ1_sim c z0 x1 x2
  have hden := denom_sim rx1 rx2 (rotY_sim cp sp y0 hz1) (rotZ_sim cp sp y0 hz1)
  have hS0 : RN (RN (RN ((0 : ℚ) + 1) * (1 / 2)) * val w) = val w / 2 := by
    rw [zero_add, RN_one, one_mul, RN_half, hhalf]
  rcases d1 with ⟨df, dne, pv1⟩ | ⟨⟨t, dinf⟩, pv1⟩
  · -- finite divisor: the same divisor for both vertices
    have deq := hden.eq_of_val_ne dne
    rw [← deq] at d2 v2 ⊢
    rcases d2 with ⟨-, -, pv2⟩ | ⟨⟨t, dinf⟩, -⟩
    · have hG : MonoOrAnti (fun t : ℚ =>
          RN (RN (RN (RN (RN (RN (RN (RN (val m00 * RN (RN (RN (t - 0) * val c) - 0)) + 0)
            + 0) + 0)
            / val (denom (rotX c (num false 0) z0 (relX (num false 0) X1))
                (rotY cp sp y0 (rotZ1 c (num false 0) z0 (relX (num false 0) X1)))
                (rotZ cp sp y0 (rotZ1 c (num false 0) z0 (relX (num false 0) X1)))))
            + 1) * (1 / 2)) * val w)) :=
        (((((((((((MonoOrAnti.id.sub_const 0).rn.mul_const (val c)).rn.sub_const 0).rn.const_mul
          (val m00)).rn.add_const 0).rn.add_const 0).rn.add_const 0).rn.div_const _).rn.add_const
            1).rn.mul_const (1 / 2)).rn.mul_const (val w)).rn
      have key := hG.abs_sub_le hx
      simp only [sub_zero, RN_zero, zero_mul, mul_zero, add_zero, zero_div] at key
      rw [hS0] at key
      rw [v1, v2, pv1, pv2, nv1, nv2, rv1, rv2, xv1, xv2]
      simpa [val] using key
    · rw [dinf] at df
      exact absurd df (by simp [IsFinite])
  · -- infinite divisor: both quotients are zeros
    have hnf : ¬ IsFinite (denom (rotX c (num false 0) z0 (relX (num false 0) X1))
        (rotY cp sp y0 (rotZ1 c (num false 0) z0 (relX (num false 0) X1)))
        (rotZ cp sp y0 (rotZ1 c (num false 0) z0 (relX (num false 0) X1)))) := by
      rw [dinf]; simp [IsFinite]
    have deq := hden.eq_of_not_finite hnf
    rw [← deq] at d2 v2 ⊢
    rcases d2 with ⟨df, -, -⟩ | ⟨-, pv2⟩
    · exact absurd df hnf
    · rw [v1, v2, pv1, pv2]

end Binary32

/-! ## The claims -/

section Claims

variable {F : Type} [LinearOrderedField F]

/-- C1 (the code does not guard the divisor): for every libm, camera and viewport, at the
vertex that coincides with the camera position the homogeneous divisor is the finite
value 0, and `projectVertex` divides by it: both screen coordinates it returns are
non-finite, so the result is not the zero point. -/
theorem projectVertex_camera_position_divides_by_zero (L : Libm F) (camera : Camera F)
    (width height : F) :
    homogeneousDivisor L camera ⟨camera.x, camera.y, camera.z⟩ width height = fin 0 ∧
      (projectVertex L camera ⟨camera.x, camera.y, camera.z⟩ width height).x = undef ∧
      (projectVertex L camera ⟨camera.x, camera.y, camera.z⟩ width height).y = undef ∧
      projectVertex L camera ⟨camera.x, camera.y, camera.z⟩ width height
        ≠ ⟨fin 0, fin 0, fin 0⟩ := by
  have hz : (rotated L camera ⟨camera.x, camera.y, camera.z⟩).2.2 = 0 := by
    simp [rotated]
  have h := projectVertex_of_eq_zero L camera ⟨camera.x, camera.y, camera.z⟩ width height hz
  refine ⟨?_, h.1, h.2, ?_⟩
  · rw [homogeneousDivisor_eq, hz, neg_zero]
  · intro e
    have := congrArg Point3D.x e
    rw [h.1] at this
    exact Flt.noConfusion this

/-- C2: `isTriangleView` returns true if and only if at least one of the three points
lies within `[0,width) × [0,height)`; it returns false whenever none of them does, as for
the triangle `(-1,-1)`, `(2*width+1,-1)`, `(-1,2*height+1)`, which for a positive width
and height contains the whole rectangle. -/
theorem isTriangleView_iff_some_point_inside (p1 p2 p3 : Point3D F) (width height : F) :
    (isTriangleView p1 p2 p3 width height = true ↔
      InViewport p1 width height ∨ InViewport p2 width height ∨ InViewport p3 width height) ∧
    (¬ InViewport p1 width height ∧ ¬ InViewport p2 width height ∧
        ¬ InViewport p3 width height → isTriangleView p1 p2 p3 width height = false) ∧
    isTriangleView (⟨fin (-1), fin (-1), fin 0⟩ : Point3D F)
      ⟨fin (2 * width + 1), fin (-1), fin 0⟩ ⟨fin (-1), fin (2 * height + 1), fin 0⟩
      width height = false := by
  have key := isTriangleView_true_iff p1 p2 p3 width height
  refine ⟨key, ?_, ?_⟩
  · rintro ⟨h1, h2, h3⟩
    rw [← Bool.not_eq_true, key]
    rintro (h | h | h)
    · exact h1 h
    · exact h2 h
    · exact h3 h
  · simp [isTriangleView]

/-- Witness for C2: on the 800 by 600 viewport the triangle `(-1,-1)`, `(1601,-1)`,
`(-1,1201)` has no vertex inside and is rejected. -/
theorem isTriangleView_iff_some_point_inside_witness :
    isTriangleView (⟨fin (-1), fin (-1), fin 0⟩ : Point3D ℚ)
      ⟨fin 1601, fin (-1), fin 0⟩ ⟨fin (-1), fin 1201, fin 0⟩ 800 600 = false :=
  (isTriangleView_iff_some_point_inside (⟨fin (-1), fin (-1), fin 0⟩ : Point3D ℚ)
      ⟨fin 1601, fin (-1), fin 0⟩ ⟨fin (-1), fin 1201, fin 0⟩ 800 600).2.1
    ⟨by rintro ⟨x, y, hx, -, h, -⟩; cases hx; norm_num at h,
     by rintro ⟨x, y, -, hy, -, -, h, -⟩; cases hy; norm_num at h,
     by rintro ⟨x, y, hx, -, h, -⟩; cases hx; norm_num at h⟩

/-- C6: for the triangle `(0,0,5)`, `(1,0,5)`, `(0,1,5)`, the camera at the origin with
yaw = pitch = 0 and the viewport 800 by 600, with a libm for which `cos 0 = 1`,
`sin 0 = 0` and `-15/4 ≤ tan 45 < 15/4` (the tangent of 45 radians is about 1.62): the
first projected point is exactly `(400, 300)`, each of the three projected points lies
within `[0,800) × [0,600)`, and `isTriangleView` returns true. -/
theorem end_to_end_single_triangle (L : Libm F) (speed : F)
    (hc : L.cos 0 = 1) (hs : L.sin 0 = 0)
    (ht : -(15 / 4) ≤ L.tan 45 ∧ L.tan 45 < 15 / 4) :
    projectVertex L ⟨0, 0, 0, 0, 0, speed⟩ ⟨0, 0, 5⟩ 800 600 = ⟨fin 400, fin 300, fin 0⟩ ∧
    InViewport (projectVertex L ⟨0, 0, 0, 0, 0, speed⟩ ⟨0, 0, 5⟩ 800 600) 800 600 ∧
    InViewport (projectVertex L ⟨0, 0, 0, 0, 0, speed⟩ ⟨1, 0, 5⟩ 800 600) 800 600 ∧
    InViewport (projectVertex L ⟨0, 0, 0, 0, 0, speed⟩ ⟨0, 1, 5⟩ 800 600) 800 600 ∧
    isTriangleView (projectVertex L ⟨0, 0, 0, 0, 0, speed⟩ ⟨0, 0, 5⟩ 800 600)
      (projectVertex L ⟨0, 0, 0, 0, 0, speed⟩ ⟨1, 0, 5⟩ 800 600)
      (projectVertex L ⟨0, 0, 0, 0, 0, speed⟩ ⟨0, 1, 5⟩ 800 600) 800 600 = true := by
  have e45 : (90 * (1 / 2) : F) = 45 := by norm_num
  have h800 : (600 : F) ≠ 0 := by norm_num
  have hp : ∀ x y : F, projectVertex L ⟨0, 0, 0, 0, 0, speed⟩ ⟨x, y, 5⟩ 800 600 =
      ⟨fin ((800 / 600 * L.tan 45 * x / 5 + 1) * (1 / 2) * 800),
        fin ((1 - L.tan 45 * y / 5) * (1 / 2) * 600), fin 0⟩ := by
    intro x y
    have hr := rotated_origin L speed ⟨x, y, 5⟩ hc hs
    have hz : (rotated L ⟨0, 0, 0, 0, 0, speed⟩ ⟨x, y, 5⟩).2.2 ≠ 0 := by
      rw [hr]; norm_num
    rw [projectVertex_of_ne L _ _ 800 600 h800 hz, hr, e45]
    simp
  have c1 : projectVertex L ⟨0, 0, 0, 0, 0, speed⟩ ⟨0, 0, 5⟩ 800 600
      = ⟨fin 400, fin 300, fin 0⟩ := by
    rw [hp]; norm_num
  have i1 : InViewport (projectVertex L ⟨0, 0, 0, 0, 0, speed⟩ ⟨0, 0, 5⟩ 800 600) 800 600 := by
    rw [c1]
    exact ⟨400, 300, rfl, rfl, by norm_num, by norm_num, by norm_num, by norm_num⟩
  obtain ⟨t1, t2⟩ := ht
  refine ⟨c1, i1, ?_, ?_, ?_⟩
  · rw [hp]
    refine ⟨_, _, rfl, rfl, ?_, ?_, ?_, ?_⟩
    · linarith
    · linarith
    · norm_num
    · norm_num
  · rw [hp]
    refine ⟨_, _, rfl, rfl, ?_, ?_, ?_, ?_⟩
    · norm_num
    · norm_num
    · linarith
    · linarith
  · exact (isTriangleView_true_iff _ _ _ 800 600).2 (Or.inl i1)

/-- Witness for C6: the sample libm meets the three hypotheses. -/
theorem end_to_end_single_triangle_witness :
    projectVertex sampleLibm ⟨0, 0, 0, 0, 0, 10⟩ ⟨0, 0, 5⟩ 800 600
        = ⟨fin 400, fin 300, fin 0⟩ ∧
    InViewport (projectVertex sampleLibm ⟨0, 0, 0, 0, 0, 10⟩ ⟨0, 0, 5⟩ 800 600) 800 600 ∧
    InViewport (projectVertex sampleLibm ⟨0, 0, 0, 0, 0, 10⟩ ⟨1, 0, 5⟩ 800 600) 800 600 ∧
    InViewport (projectVertex sampleLibm ⟨0, 0, 0, 0, 0, 10⟩ ⟨0, 1, 5⟩ 800 600) 800 600 ∧
    isTriangleView (projectVertex sampleLibm ⟨0, 0, 0, 0, 0, 10⟩ ⟨0, 0, 5⟩ 800 600)
      (projectVertex sampleLibm ⟨0, 0, 0, 0, 0, 10⟩ ⟨1, 0, 5⟩ 800 600)
      (projectVertex sampleLibm ⟨0, 0, 0, 0, 0, 10⟩ ⟨0, 1, 5⟩ 800 600) 800 600 = true :=
  end_to_end_single_triangle sampleLibm 10 (by simp [sampleLibm]) (by simp [sampleLibm])
    (by norm_num [sampleLibm])

/-- C7 as stated fails on binary32 (camera at the origin, yaw = pitch = 0, viewport 800 by
600, vertices with y = 0 and z = 5).  The lateral offsets `1e-8f` and `2e-8f` both
project to the abscissa 400 exactly, the quotient being absorbed in `projectedX + 1`, so
the smaller offset is not strictly closer to the centre.  The offsets 1 and -1 project to
4692181/2^13 (572.776001) and 7445675/2^15 (227.223969), at the distances 172.776001 and
172.776031 from the centre, so equal offsets do not give equal distances. -/
theorem projectVertex_lateral_offset_not_monotone_binary32 :
    F32.lit (1 / 100000000) = F32.num false (11258999 / 1125899906842624) ∧
    F32.lit (2 / 100000000) = F32.num false (11258999 / 562949953421312) ∧
    (Binary32.projectVertex sampleLibm32
        ⟨F32.lit 0, F32.lit 0, F32.lit 0, F32.lit 0, F32.lit 0, F32.lit 10⟩
        ⟨F32.lit (1 / 100000000), F32.lit 0, F32.lit 5⟩ (F32.lit 800) (F32.lit 600)).x
      = F32.num false 400 ∧
    (Binary32.projectVertex sampleLibm32
        ⟨F32.lit 0, F32.lit 0, F32.lit 0, F32.lit 0, F32.lit 0, F32.lit 10⟩
        ⟨F32.lit (2 / 100000000), F32.lit 0, F32.lit 5⟩ (F32.lit 800) (F32.lit 600)).x
      = F32.num false 400 ∧
    (Binary32.projectVertex sampleLibm32
        ⟨F32.lit 0, F32.lit 0, F32.lit 0, F32.lit 0, F32.lit 0, F32.lit 10⟩
        ⟨F32.lit 1, F32.lit 0, F32.lit 5⟩ (F32.lit 800) (F32.lit 600)).x
      = F32.num false (4692181 / 8192) ∧
    (Binary32.projectVertex sampleLibm32
        ⟨F32.lit 0, F32.lit 0, F32.lit 0, F32.lit 0, F32.lit 0, F32.lit 10⟩
        ⟨F32.lit (-1), F32.lit 0, F32.lit 5⟩ (F32.lit 800) (F32.lit 600)).x
      = F32.num false (7445675 / 32768) ∧
    |(4692181 / 8192 : ℚ) - 800 / 2| ≠ |(7445675 / 32768 : ℚ) - 800 / 2| := by
  refine ⟨?_, ?_, ?_, ?_, ?_, ?_, ?_⟩ <;> decide!

/-- C7, amended: with the camera at the origin and yaw = pitch = 0, for two vertices that
share the same y and the same z.  On binary32, with a libm for which `sin 0 = 0`, when
half the width is again a float and both projected abscissas are finite: lateral offsets
of the same sign with `|x1| ≤ |x2|` give `|a - width/2| ≤ |b - width/2|`, so the vertex
with the smaller offset is at least as close horizontally to the image center.  In exact
arithmetic, with a viewport of positive width and height, a non-zero z and a libm for
which `cos 0 = 1`, `sin 0 = 0` and `tan 45 ≠ 0`: `|x1| < |x2|` gives the strict
`|a - width/2| < |b - width/2|`, and `|x1| = |x2|` gives equal distances. -/
theorem projectVertex_lateral_offset_monotone (L32 : Libm F32)
    (speed32 X1 X2 Y Z width32 height32 : F32)
    (L : Libm F) (speed width height x1 x2 y z : F) :
    (L32.sin (F32.lit 0) = F32.lit 0 →
      F32.RN (1 / 2 * F32.val width32) = F32.val width32 / 2 →
      F32.IsFinite (Binary32.projectVertex L32
        ⟨F32.lit 0, F32.lit 0, F32.lit 0, F32.lit 0, F32.lit 0, speed32⟩ ⟨X1, Y, Z⟩
        width32 height32).x →
      F32.IsFinite (Binary32.projectVertex L32
        ⟨F32.lit 0, F32.lit 0, F32.lit 0, F32.lit 0, F32.lit 0, speed32⟩ ⟨X2, Y, Z⟩
        width32 height32).x →
      ((0 ≤ F32.val X1 ∧ F32.val X1 ≤ F32.val X2) ∨
        (F32.val X2 ≤ F32.val X1 ∧ F32.val X1 ≤ 0)) →
      |F32.val (Binary32.projectVertex L32
          ⟨F32.lit 0, F32.lit 0, F32.lit 0, F32.lit 0, F32.lit 0, speed32⟩ ⟨X1, Y, Z⟩
          width32 height32).x - F32.val width32 / 2|
        ≤ |F32.val (Binary32.projectVertex L32
          ⟨F32.lit 0, F32.lit 0, F32.lit 0, F32.lit 0, F32.lit 0, speed32⟩ ⟨X2, Y, Z⟩
          width32 height32).x - F32.val width32 / 2|) ∧
    (L.cos 0 = 1 → L.sin 0 = 0 → L.tan 45 ≠ 0 → 0 < width → 0 < height → z ≠ 0 →
      ∃ a b : F,
        (projectVertex L ⟨0, 0, 0, 0, 0, speed⟩ ⟨x1, y, z⟩ width height).x = fin a ∧
        (projectVertex L ⟨0, 0, 0, 0, 0, speed⟩ ⟨x2, y, z⟩ width height).x = fin b ∧
        (|x1| < |x2| → |a - width / 2| < |b - width / 2|) ∧
        (|x1| = |x2| → |a - width / 2| = |b - width / 2|)) := by
  constructor
  · intro hs hhalf h1 h2 hx
    have e : ∀ X : F32, (Binary32.projectVertex L32
          ⟨F32.lit 0, F32.lit 0, F32.lit 0, F32.lit 0, F32.lit 0, speed32⟩ ⟨X, Y, Z⟩
          width32 height32).x
        = Binary32.screenX (width32 / height32 * L32.tan (F32.lit 90 * F32.lit (1 / 2)))
            (L32.cos (F32.lit 0)) (L32.sin (F32.lit 0)) (L32.cos (F32.lit 0))
            (L32.sin (F32.lit 0)) (Y - F32.lit 0) (-(Z - F32.lit 0)) (F32.lit 0) width32 X :=
      fun X => rfl
    rw [e X1] at h1 ⊢
    rw [e X2] at h2 ⊢
    rw [hs, F32.lit_zero] at h1 h2 ⊢
    exact Binary32.screenX_lateral _ _ _ _ _ _ _ X1 X2 h1 h2 hhalf hx
  · intro hc hs ht hw hh hz
    exact projectVertex_lateral_exact L speed width height x1 x2 y z hc hs ht hw hh hz

/-- Witness for C7, amended: on binary32 the offsets 1 and 2, and in exact arithmetic the
offsets 1 and -2, at depth 5 on the viewport 800 by 600. -/
theorem projectVertex_lateral_offset_monotone_witness :
    |F32.val (Binary32.projectVertex sampleLibm32
          ⟨F32.lit 0, F32.lit 0, F32.lit 0, F32.lit 0, F32.lit 0, F32.lit 10⟩
          ⟨F32.lit 1, F32.lit 0, F32.lit 5⟩ (F32.lit 800) (F32.lit 600)).x
        - F32.val (F32.lit 800) / 2|
      ≤ |F32.val (Binary32.projectVertex sampleLibm32
          ⟨F32.lit 0, F32.lit 0, F32.lit 0, F32.lit 0, F32.lit 0, F32.lit 10⟩
          ⟨F32.lit 2, F32.lit 0, F32.lit 5⟩ (F32.lit 800) (F32.lit 600)).x
        - F32.val (F32.lit 800) / 2| ∧
    ∃ a b : ℚ,
      (projectVertex sampleLibm ⟨0, 0, 0, 0, 0, 10⟩ ⟨1, 0, 5⟩ 800 600).x = fin a ∧
      (projectVertex sampleLibm ⟨0, 0, 0, 0, 0, 10⟩ ⟨-2, 0, 5⟩ 800 600).x = fin b ∧
      (|(1 : ℚ)| < |(-2 : ℚ)| → |a - 800 / 2| < |b - 800 / 2|) ∧
      (|(1 : ℚ)| = |(-2 : ℚ)| → |a - 800 / 2| = |b - 800 / 2|) :=
  ⟨(projectVertex_lateral_offset_monotone sampleLibm32 (F32.lit 10) (F32.lit 1) (F32.lit 2)
      (F32.lit 0) (F32.lit 5) (F32.lit 800) (F32.lit 600)
      sampleLibm 10 800 600 1 (-2) 0 5).1
      (by decide!) (by decide!) (by decide!) (by decide!) (Or.inl (by decide!)),
    (projectVertex_lateral_offset_monotone sampleLibm32 (F32.lit 10) (F32.lit 1) (F32.lit 2)
      (F32.lit 0) (F32.lit 5) (F32.lit 800) (F32.lit 600)
      sampleLibm 10 800 600 1 (-2) 0 5).2
      (by simp [sampleLibm]) (by simp [sampleLibm]) (by norm_num [sampleLibm])
      (by norm_num) (by norm_num) (by norm_num)⟩

/-- C8 as stated fails on binary32, where every addition rounds.  From the default camera
(yaw 0.75f, pitch -5.7f), ten calls `Rotate(0.1f, 0.1f)` give the yaw 7340033/2^22
(1.75000024) and the pitch -1232077/2^18 (-4.70000076), while one call with
`10 * 0.1f = 1.0f` gives the yaw 7/4 and the pitch -4928307/2^20 (-4.69999981).  From the
yaw 1, two calls with the delta `2^-24` leave the yaw at 1 (both sums are ties that round
to even), while one call with the delta `2^-23` gives `1 + 2^-23`. -/
theorem rotate_repeated_differs_from_scaled_binary32 :
    ((fun k : Camera F32 => k.Rotate (F32.lit (1 / 10)) (F32.lit (1 / 10)))^[10]
        ⟨F32.lit 5, F32.lit 5, F32.lit (-5), F32.lit (3 / 4), F32.lit (-57 / 10),
          F32.lit 10⟩).yaw = F32.num false (7340033 / 4194304) ∧
    ((fun k : Camera F32 => k.Rotate (F32.lit (1 / 10)) (F32.lit (1 / 10)))^[10]
        ⟨F32.lit 5, F32.lit 5, F32.lit (-5), F32.lit (3 / 4), F32.lit (-57 / 10),
          F32.lit 10⟩).pitch = F32.num true (1232077 / 262144) ∧
    F32.lit 10 * F32.lit (1 / 10) = F32.num false 1 ∧
    (Camera.Rotate (⟨F32.lit 5, F32.lit 5, F32.lit (-5), F32.lit (3 / 4), F32.lit (-57 / 10),
          F32.lit 10⟩ : Camera F32) (F32.lit 10 * F32.lit (1 / 10))
        (F32.lit 10 * F32.lit (1 / 10))).yaw = F32.num false (7 / 4) ∧
    (Camera.Rotate (⟨F32.lit 5, F32.lit 5, F32.lit (-5), F32.lit (3 / 4), F32.lit (-57 / 10),
          F32.lit 10⟩ : Camera F32) (F32.lit 10 * F32.lit (1 / 10))
        (F32.lit 10 * F32.lit (1 / 10))).pitch = F32.num true (4928307 / 1048576) ∧
    ((fun k : Camera F32 => k.Rotate (F32.num false (1 / 16777216))
          (F32.num false (1 / 16777216)))^[2]
        ⟨F32.lit 0, F32.lit 0, F32.lit 0, F32.lit 1, F32.lit 1, F32.lit 10⟩).yaw
      = F32.num false 1 ∧
    F32.lit 2 * F32.num false (1 / 16777216) = F32.num false (1 / 8388608) ∧
    (Camera.Rotate (⟨F32.lit 0, F32.lit 0, F32.lit 0, F32.lit 1, F32.lit 1, F32.lit 10⟩ :
          Camera F32) (F32.lit 2 * F32.num false (1 / 16777216))
        (F32.lit 2 * F32.num false (1 / 16777216))).yaw
      = F32.num false (8388609 / 8388608) := by
  refine ⟨?_, ?_, ?_, ?_, ?_, ?_, ?_, ?_⟩ <;> decide!

/-- C8, amended: for every camera state, every natural number `N` and all deltas `(a, b)`,
`N` calls of `Rotate(a, b)` in sequence leave position and speed unchanged and apply no
wrapping or clamping: yaw and pitch are the results of `N` successive additions of `a`
and of `b`, for any float addition (the first part, on every type with an addition, so
on binary32).  In exact arithmetic the additions accumulate to `N*a` and `N*b`, and the
state is that of one call `Rotate(N*a, N*b)` (the second part, in a field). -/
theorem rotate_iterate_accumulates {α : Type} [Add α] (c : Camera α) (N : ℕ) (a b : α)
    (e : Camera F) (x y : F) :
    (fun k : Camera α => k.Rotate a b)^[N] c
      = ⟨c.x, c.y, c.z, (fun t => t + a)^[N] c.yaw, (fun t => t + b)^[N] c.pitch, c.speed⟩ ∧
    (fun k : Camera F => k.Rotate x y)^[N] e = e.Rotate (N * x) (N * y) ∧
    (fun k : Camera F => k.Rotate x y)^[N] e
      = ⟨e.x, e.y, e.z, e.yaw + N * x, e.pitch + N * y, e.speed⟩ := by
  have gen : ∀ n : ℕ, (fun k : Camera α => k.Rotate a b)^[n] c
      = ⟨c.x, c.y, c.z, (fun t => t + a)^[n] c.yaw, (fun t => t + b)^[n] c.pitch,
          c.speed⟩ := by
    intro n
    induction n with
    | zero => rfl
    | succ n ih =>
      rw [Function.iterate_succ_apply', ih, Function.iterate_succ_apply',
        Function.iterate_succ_apply']
      rfl
  have key : ∀ n : ℕ, (fun k : Camera F => k.Rotate x y)^[n] e
      = ⟨e.x, e.y, e.z, e.yaw + n * x, e.pitch + n * y, e.speed⟩ := by
    intro n
    induction n with
    | zero => simp
    | succ n ih =>
      rw [Function.iterate_succ_apply', ih]
      simp only [Camera.Rotate, Nat.cast_succ, Camera.mk.injEq, true_and, and_true]
      constructor <;> ring
  exact ⟨gen N, key N, key N⟩

/-- C4 (the code does not guard the zero length): for every degenerate triangle (the
cross product of its edges is the zero vector), every light position and every libm with
`sqrt 0 = 0`, `calculateLighting` divides the zero normal by its zero length, and the
intensity it returns is non-finite, not the intensity 0. -/
theorem shade_degenerate_triangle_divides_by_zero (L : Libm F) (v1 v2 v3 : Vertex F)
    (light : LightSource F) (hdeg : calculateNormal v1 v2 v3 = ⟨0, 0, 0⟩)
    (hs : L.sqrt 0 = 0) :
    calculateLighting L (calculateNormal v1 v2 v3) light = undef ∧
      calculateLighting L (calculateNormal v1 v2 v3) light ≠ fin 0 := by
  rw [hdeg, calculateLighting_zero_normal L light hs]
  exact ⟨rfl, fun h => Flt.noConfusion h⟩

/-- Witness for C4: the vertex `(0,0,0)` repeated three times and the light at
`(5,5,5)`. -/
theorem shade_degenerate_triangle_divides_by_zero_witness :
    calculateLighting sampleLibm
        (calculateNormal (⟨0, 0, 0⟩ : Vertex ℚ) ⟨0, 0, 0⟩ ⟨0, 0, 0⟩) ⟨5, 5, 5⟩ = undef ∧
      calculateLighting sampleLibm
        (calculateNormal (⟨0, 0, 0⟩ : Vertex ℚ) ⟨0, 0, 0⟩ ⟨0, 0, 0⟩) ⟨5, 5, 5⟩ ≠ fin 0 :=
  shade_degenerate_triangle_divides_by_zero sampleLibm ⟨0, 0, 0⟩ ⟨0, 0, 0⟩ ⟨0, 0, 0⟩ ⟨5, 5, 5⟩
    (by simp [calculateNormal]) (by simp [sampleLibm])

/-- C5 as stated fails: the file with the single line `f 1 2 3` and no `v` line loads
successfully, the face `(0,1,2)` it stores is out of range of the empty vertex sequence,
and `renderModel` on the loaded globals reads outside the vertex sequence. -/
theorem loadObj_accepts_out_of_range_face :
    (loadObj (some [Line.f 1 2 3]) (⟨[], []⟩ : Mesh ℚ)).1 = true ∧
    (loadObj (some [Line.f 1 2 3]) (⟨[], []⟩ : Mesh ℚ)).2.faces = [⟨0, 1, 2⟩] ∧
    (loadObj (some [Line.f 1 2 3]) (⟨[], []⟩ : Mesh ℚ)).2.vertices.length = 0 ∧
    (¬ ∀ face ∈ (loadObj (some [Line.f 1 2 3]) (⟨[], []⟩ : Mesh ℚ)).2.faces,
        face.InRange (loadObj (some [Line.f 1 2 3]) (⟨[], []⟩ : Mesh ℚ)).2.vertices.length) ∧
    renderModel sampleLibm ⟨0, 0, 0, 0, 0, 10⟩ ⟨5, 5, 5⟩
      (loadObj (some [Line.f 1 2 3]) (⟨[], []⟩ : Mesh ℚ)).2 800 600 = none := by
  have hf : (loadObj (some [Line.f 1 2 3]) (⟨[], []⟩ : Mesh ℚ)).2.faces = [⟨0, 1, 2⟩] := by
    simp [loadObj, loadLine, wrapInt32]
  refine ⟨rfl, hf, rfl, ?_, ?_⟩
  · intro h
    have h1 := h ⟨0, 1, 2⟩ (by rw [hf]; exact List.mem_singleton.mpr rfl)
    simp [Face.InRange, loadObj, loadLine] at h1
  · simp [renderModel, renderFace, vertexAt, loadObj, loadLine, wrapInt32]

/-- C5, amended: `loadObj` fails exactly when the file cannot be opened and validates no
index.  For every file content that opens it returns true, appends one vertex for every
`v` line and one face for every `f` line, whatever the extraction read: the face holds
the three field values after the extraction, each decremented by one in 32 bits.  Loaded
into empty globals with fewer than 2^31 vertices, the stored faces all have
`0 <= index < number of loaded vertices` exactly when every `f` line left in its three
fields values between 1 and the number of `v` lines of the file; and when the stored
faces are in range, every element access `vertices[face.v1]`, `vertices[face.v2]`,
`vertices[face.v3]` of `renderModel` is inside the vertex sequence. -/
theorem loadObj_stores_every_face_unchecked {K : Type} (lines : List (Line K))
    (m : Mesh K) :
    loadObj none m = (false, m) ∧
    loadObj (some lines) m
      = (true, ⟨m.vertices ++ lines.filterMap Line.vertex?,
          m.faces ++ lines.filterMap Line.face?⟩) ∧
    ((∀ i1 i2 i3 : Int, Line.f i1 i2 i3 ∈ lines → IsInt32 i1 ∧ IsInt32 i2 ∧ IsInt32 i3) →
      (lines.filterMap Line.vertex?).length < 2147483648 →
      ((∀ face ∈ (loadObj (some lines) (⟨[], []⟩ : Mesh K)).2.faces,
          face.InRange (loadObj (some lines) (⟨[], []⟩ : Mesh K)).2.vertices.length) ↔
        ∀ i1 i2 i3 : Int, Line.f i1 i2 i3 ∈ lines →
          (1 ≤ i1 ∧ i1 ≤ (lines.filterMap Line.vertex?).length) ∧
          (1 ≤ i2 ∧ i2 ≤ (lines.filterMap Line.vertex?).length) ∧
          (1 ≤ i3 ∧ i3 ≤ (lines.filterMap Line.vertex?).length))) ∧
    ((∀ face ∈ (loadObj (some lines) (⟨[], []⟩ : Mesh K)).2.faces,
        face.InRange (loadObj (some lines) (⟨[], []⟩ : Mesh K)).2.vertices.length) →
      ∀ face ∈ (loadObj (some lines) (⟨[], []⟩ : Mesh K)).2.faces,
        (vertexAt (loadObj (some lines) (⟨[], []⟩ : Mesh K)).2.vertices face.v1).isSome = true ∧
        (vertexAt (loadObj (some lines) (⟨[], []⟩ : Mesh K)).2.vertices face.v2).isSome = true ∧
        (vertexAt (loadObj (some lines) (⟨[], []⟩ : Mesh K)).2.vertices face.v3).isSome
          = true) := by
  refine ⟨rfl, ?_, ?_, ?_⟩
  · simp only [loadObj, foldl_loadLine]
  · intro hint hnv
    simp only [loadObj, foldl_loadLine, List.nil_append, List.mem_filterMap]
    constructor
    · intro h i1 i2 i3 hm
      have hr := h ⟨wrapInt32 (i1 - 1), wrapInt32 (i2 - 1), wrapInt32 (i3 - 1)⟩
        ⟨Line.f i1 i2 i3, hm, rfl⟩
      obtain ⟨⟨a0, a1⟩, ⟨b0, b1⟩, ⟨c0, c1⟩⟩ := hint i1 i2 i3 hm
      simp only [Face.InRange, wrapInt32] at hr
      omega
    · rintro h face ⟨l, hm, hl⟩
      cases l with
      | v x y z => simp [Line.face?] at hl
      | other => simp [Line.face?] at hl
      | f i1 i2 i3 =>
        simp only [Line.face?, Option.some.injEq] at hl
        subst hl
        have hr := h i1 i2 i3 hm
        simp only [Face.InRange, wrapInt32]
        omega
  · intro h face hm
    obtain ⟨⟨a0, a1⟩, ⟨b0, b1⟩, ⟨c0, c1⟩⟩ := h face hm
    exact ⟨vertexAt_isSome _ _ a0 a1, vertexAt_isSome _ _ b0 b1, vertexAt_isSome _ _ c0 c1⟩

/-- Witness for C5, amended: a file with three `v` lines and the line `f 1 2 3` stores the
face `(0,1,2)` in range. -/
theorem loadObj_stores_every_face_unchecked_witness :
    (∀ face ∈ (loadObj (some [Line.v 0 0 5, Line.v 1 0 5, Line.v 0 1 5, Line.f 1 2 3])
        (⟨[], []⟩ : Mesh ℚ)).2.faces,
      face.InRange (loadObj (some [Line.v 0 0 5, Line.v 1 0 5, Line.v 0 1 5, Line.f 1 2 3])
        (⟨[], []⟩ : Mesh ℚ)).2.vertices.length) ↔
    ∀ i1 i2 i3 : Int,
      Line.f i1 i2 i3 ∈ ([Line.v 0 0 5, Line.v 1 0 5, Line.v 0 1 5, Line.f 1 2 3] :
        List (Line ℚ)) →
      (1 ≤ i1 ∧ i1 ≤ (([Line.v 0 0 5, Line.v 1 0 5, Line.v 0 1 5, Line.f 1 2 3] :
        List (Line ℚ)).filterMap Line.vertex?).length) ∧
      (1 ≤ i2 ∧ i2 ≤ (([Line.v 0 0 5, Line.v 1 0 5, Line.v 0 1 5, Line.f 1 2 3] :
        List (Line ℚ)).filterMap Line.vertex?).length) ∧
      (1 ≤ i3 ∧ i3 ≤ (([Line.v 0 0 5, Line.v 1 0 5, Line.v 0 1 5, Line.f 1 2 3] :
        List (Line ℚ)).filterMap Line.vertex?).length) :=
  (loadObj_stores_every_face_unchecked
      ([Line.v 0 0 5, Line.v 1 0 5, Line.v 0 1 5, Line.f 1 2 3] : List (Line ℚ))
      ⟨[], []⟩).2.2.1
    (by
      intro i1 i2 i3 hm
      simp only [List.mem_cons, List.mem_singleton, Line.f.injEq, List.not_mem_nil,
        or_false, false_or, reduceCtorEq] at hm
      obtain ⟨h1, h2, h3⟩ := hm
      subst h1 h2 h3
      simp [IsInt32])
    (by simp [Line.vertex?])

/-- C9: for every mesh whose face indices are in range, every camera, light and viewport,
`renderModel` accesses no vertex out of range, and the sequence of triangles it submits
is the face list, in mesh order, restricted to the faces whose three projected vertices
`isTriangleView` accepts, each submitted once with its three projected points, the colour
(255,255,255) and the intensity `calculateLighting (calculateNormal ..) light` of its
object-space vertices. -/
theorem renderModel_submits_visible_faces_in_order (L : Libm F) (camera : Camera F)
    (lightSource : LightSource F) (m : Mesh F) (width height : F)
    (h : ∀ face ∈ m.faces, face.InRange m.vertices.length) :
    renderModel L camera lightSource m width height
      = some (m.faces.filterMap
          (submission L camera lightSource m.vertices width height)) := by
  rw [renderModel, foldlM_renderFace L camera lightSource m.vertices width height m.faces h []]
  simp

/-- Witness for C9: the single-triangle mesh with two faces over its three vertices. -/
theorem renderModel_submits_visible_faces_in_order_witness :
    renderModel sampleLibm ⟨0, 0, 0, 0, 0, 10⟩ ⟨5, 5, 5⟩
        ⟨[⟨0, 0, 5⟩, ⟨1, 0, 5⟩, ⟨0, 1, 5⟩], [⟨0, 1, 2⟩, ⟨2, 1, 0⟩]⟩ 800 600
      = some ((([⟨0, 1, 2⟩, ⟨2, 1, 0⟩] : List Face)).filterMap
          (submission sampleLibm ⟨0, 0, 0, 0, 0, 10⟩ ⟨5, 5, 5⟩
            [⟨0, 0, 5⟩, ⟨1, 0, 5⟩, ⟨0, 1, 5⟩] 800 600)) :=
  renderModel_submits_visible_faces_in_order sampleLibm ⟨0, 0, 0, 0, 0, 10⟩ ⟨5, 5, 5⟩
    ⟨[⟨0, 0, 5⟩, ⟨1, 0, 5⟩, ⟨0, 1, 5⟩], [⟨0, 1, 2⟩, ⟨2, 1, 0⟩]⟩ 800 600
    (by simp [Face.InRange])

end Claims

end SqRAPI
